import Mathlib

/-!
Verification of the paymo-cli cache subsystem: a shallow embedding in Lean 4 of
the JSON-file-backed `Store` (internal/cache store), the `CachedClient`
decorator (internal/cache/cached_client.go) and the cache-key derivation
functions (internal/cache keys), together with theorems settling the frozen
claims about them.

Modelling conventions:
* Go maps (`map[string]V`) are modelled as association lists with
  lookup/insert/delete functions mirroring Go map semantics; Go's map
  iteration order is not specified, the model fixes insertion order.
* `json.RawMessage` payloads are modelled by the inductive `Payload`, one
  constructor per Go type the system ever serializes; `json.Marshal` is the
  injection into `Payload` and `json.Unmarshal` into a given Go type is the
  corresponding partial projection (it fails on a document of a different
  shape, as the Go unmarshal of an array into a struct does).
* `time.Now()` is passed explicitly as an integer `now` (epoch seconds);
  `time.Duration` TTLs are modelled in the seconds granularity the store
  persists (`int64(ttl.Seconds())`).
* Disk persistence (`flush`) is not modelled: every claim is about the
  in-memory document within one process.
* Go `float64` struct fields (budget_hours, price_per_hour) are omitted from
  the data model; no claim mentions them.
-/

namespace Paymo

/-! ### Association-list model of Go maps -/

/-- Lookup in a Go map modelled as an association list. -/
def mfind {β : Type} (k : String) : List (String × β) → Option β
  | [] => none
  | (k', v) :: rest => if k' = k then some v else mfind k rest

/-- Insert/replace in a Go map modelled as an association list. -/
def minsert {β : Type} (k : String) (v : β) : List (String × β) → List (String × β)
  | [] => [(k, v)]
  | (k', v') :: rest => if k' = k then (k, v) :: rest else (k', v') :: minsert k v rest

/-- Deletion from a Go map modelled as an association list. -/
def mdelete {β : Type} (k : String) : List (String × β) → List (String × β)
  | [] => []
  | (k', v') :: rest => if k' = k then mdelete k rest else (k', v') :: mdelete k rest

theorem mfind_minsert_self {β : Type} (k : String) (v : β) (m : List (String × β)) :
    mfind k (minsert k v m) = some v := by
  induction m with
  | nil => simp [minsert, mfind]
  | cons hd tl ih =>
    obtain ⟨k', v'⟩ := hd
    by_cases h : k' = k
    · simp [minsert, mfind, h]
    · simp [minsert, mfind, h, ih]

theorem mfind_minsert_ne {β : Type} {k k' : String} (h : k' ≠ k) (v : β)
    (m : List (String × β)) : mfind k' (minsert k v m) = mfind k' m := by
  have hne : ¬ k = k' := fun hh => h hh.symm
  induction m with
  | nil => simp [minsert, mfind, hne]
  | cons hd tl ih =>
    obtain ⟨k₀, v₀⟩ := hd
    by_cases hk : k₀ = k
    · subst hk
      simp [minsert, mfind, hne]
    · simp [minsert, mfind, hk, ih]

theorem mfind_mdelete_self {β : Type} (k : String) (m : List (String × β)) :
    mfind k (mdelete k m) = none := by
  induction m with
  | nil => simp [mdelete, mfind]
  | cons hd tl ih =>
    obtain ⟨k', v'⟩ := hd
    by_cases h : k' = k
    · simp [mdelete, h, ih]
    · simp [mdelete, mfind, h, ih]

theorem mfind_mdelete_ne {β : Type} {k k' : String} (h : k' ≠ k)
    (m : List (String × β)) : mfind k' (mdelete k m) = mfind k' m := by
  have hne : ¬ k = k' := fun hh => h hh.symm
  induction m with
  | nil => simp [mdelete]
  | cons hd tl ih =>
    obtain ⟨k₀, v₀⟩ := hd
    by_cases hk : k₀ = k
    · subst hk
      simp [mdelete, mfind, hne, ih]
    · simp [mdelete, mfind, hk, ih]

/-! ### Decimal rendering (`fmt.Sprintf("%d", ·)`) and string helpers -/

/-- Big-endian decimal digit characters of `n`, fuel-driven so that it reduces
by kernel computation.  `decCharsAux fuel n` is correct whenever `n ≤ fuel`. -/
def decCharsAux : Nat → Nat → List Char
  | 0, _ => []
  | _ + 1, 0 => []
  | f + 1, n + 1 => decCharsAux f ((n + 1) / 10) ++ [Nat.digitChar ((n + 1) % 10)]

/-- Big-endian decimal digit characters of a natural number (`"0"` for zero). -/
def decChars (n : Nat) : List Char :=
  if n = 0 then ['0'] else decCharsAux n n

/-- Decimal rendering of a natural number, as produced by `fmt.Sprintf("%d", n)`. -/
def natRepr (n : Nat) : String := ⟨decChars n⟩

/-- Decimal rendering of a Go `int`, as produced by `fmt.Sprintf("%d", n)`. -/
def intRepr (n : Int) : String :=
  if n < 0 then "-" ++ natRepr (-n).toNat else natRepr n.toNat

/-- Go `strings.Join(elems, sep)`. -/
def joinSep (sep : String) : List String → String
  | [] => ""
  | [s] => s
  | s :: rest => s ++ sep ++ joinSep sep rest

/-- Whether `pre` is a leading segment of `s` (character lists). -/
def listHasPre : List Char → List Char → Bool
  | [], _ => true
  | _ :: _, [] => false
  | c :: cs, d :: ds => c = d && listHasPre cs ds

/-- Whether `sub` occurs inside `s` (character lists); Go `strings.Contains`. -/
def listInfix (sub s : List Char) : Bool :=
  if listHasPre sub s then true else
    match s with
    | [] => false
    | _ :: t => listInfix sub t

/-- Go `strings.Contains(s, sub)`. -/
def strContains (s sub : String) : Bool := listInfix sub.data s.data

/-- Go `strings.ToLower` (ASCII folding, which covers every name the model
handles). -/
def strToLower (s : String) : String := ⟨s.data.map Char.toLower⟩

/-- Decode a big-endian digit-character list back to the number it denotes
(proof apparatus, not part of the source model). -/
def charsToNat (l : List Char) : Nat :=
  l.foldl (fun a c => 10 * a + (c.toNat - 48)) 0

/-- Left-pad a character list with `'0'` to width `w` (used by the
day-granularity date rendering `Format("2006-01-02")`). -/
def padZero (w : Nat) (l : List Char) : List Char :=
  List.replicate (w - l.length) '0' ++ l

theorem decCharsAux_eq : ∀ fuel n, n ≤ fuel →
    decCharsAux fuel n = ((Nat.digits 10 n).reverse).map Nat.digitChar := by
  intro fuel
  induction fuel with
  | zero =>
    intro n hn
    interval_cases n
    simp [decCharsAux]
  | succ f ih =>
    intro n hn
    match n with
    | 0 => simp [decCharsAux]
    | m + 1 =>
      have hdiv : (m + 1) / 10 ≤ f := by
        have := Nat.div_lt_self (Nat.succ_pos m) (by norm_num : 1 < 10)
        omega
      rw [decCharsAux, ih _ hdiv, Nat.digits_def' (by norm_num : 1 < 10) (Nat.succ_pos m)]
      simp

theorem digitChar_toNat {d : Nat} (h : d < 10) : (Nat.digitChar d).toNat - 48 = d := by
  interval_cases d <;> rfl

theorem digitChar_isDigit {d : Nat} (h : d < 10) : (Nat.digitChar d).isDigit = true := by
  interval_cases d <;> rfl

theorem foldl_decode_digits : ∀ (l : List Nat) (a : Nat), (∀ d ∈ l, d < 10) →
    List.foldl (fun x c => 10 * x + (c.toNat - 48)) a (l.map Nat.digitChar) =
      List.foldl (fun x d => 10 * x + d) a l := by
  intro l
  induction l with
  | nil => intro a _; rfl
  | cons d t ih =>
    intro a hd
    have h0 : d < 10 := hd d (List.mem_cons_self d t)
    simp only [List.map_cons, List.foldl_cons, digitChar_toNat h0]
    exact ih _ (fun x hx => hd x (List.mem_cons_of_mem d hx))

theorem foldl_mul_add : ∀ (l : List Nat) (a : Nat),
    List.foldl (fun x d => 10 * x + d) a l = a * 10 ^ l.length + Nat.ofDigits 10 l.reverse := by
  intro l
  induction l with
  | nil => intro a; simp [Nat.ofDigits]
  | cons d t ih =>
    intro a
    simp only [List.foldl_cons, ih, List.reverse_cons, Nat.ofDigits_append,
      List.length_reverse, List.length_cons, Nat.ofDigits_singleton]
    ring

theorem charsToNat_decChars (n : Nat) : charsToNat (decChars n) = n := by
  by_cases h : n = 0
  · subst h; rfl
  · have hlt : ∀ d ∈ (Nat.digits 10 n).reverse, d < 10 := by
      intro d hd
      exact Nat.digits_lt_base (by norm_num) (List.mem_reverse.mp hd)
    rw [decChars, if_neg h, decCharsAux_eq n n le_rfl, charsToNat,
      foldl_decode_digits _ 0 hlt, foldl_mul_add]
    simp [Nat.ofDigits_digits]

theorem natRepr_injective {a b : Nat} (h : natRepr a = natRepr b) : a = b := by
  have hd : decChars a = decChars b := congrArg String.data h
  have := congrArg charsToNat hd
  rwa [charsToNat_decChars, charsToNat_decChars] at this

theorem decChars_ne_nil (n : Nat) : decChars n ≠ [] := by
  by_cases h : n = 0
  · subst h; simp [decChars]
  · rw [decChars, if_neg h, decCharsAux_eq n n le_rfl]
    simp [Nat.digits_ne_nil_iff_ne_zero.mpr h]

theorem decChars_isDigit {n : Nat} {c : Char} (h : c ∈ decChars n) : c.isDigit = true := by
  by_cases hn : n = 0
  · subst hn
    simp [decChars] at h
    subst h; rfl
  · rw [decChars, if_neg hn, decCharsAux_eq n n le_rfl] at h
    obtain ⟨d, hd, rfl⟩ := List.mem_map.mp h
    exact digitChar_isDigit (Nat.digits_lt_base (by norm_num) (List.mem_reverse.mp hd))

theorem decChars_length_le {n k : Nat} (hn : n < 10 ^ k) (hk : 1 ≤ k) :
    (decChars n).length ≤ k := by
  by_cases h : n = 0
  · subst h; simpa [decChars] using hk
  · rw [decChars, if_neg h, decCharsAux_eq n n le_rfl]
    simp only [List.length_map, List.length_reverse]
    rw [Nat.digits_len 10 n (by norm_num) h]
    have := (Nat.lt_pow_iff_log_lt (by norm_num : 1 < 10) h).mp hn
    omega

theorem charsToNat_padZero (w : Nat) (l : List Char) :
    charsToNat (padZero w l) = charsToNat l := by
  rw [padZero, charsToNat, charsToNat, List.foldl_append]
  congr 1
  generalize w - l.length = j
  induction j with
  | zero => rfl
  | succ m ih => simpa [List.replicate_succ] using ih

theorem padZero_length {w : Nat} {l : List Char} (h : l.length ≤ w) :
    (padZero w l).length = w := by
  simp [padZero]
  omega

theorem padZero_isDigit {w : Nat} {l : List Char} {c : Char}
    (hl : ∀ c ∈ l, c.isDigit = true) (hc : c ∈ padZero w l) : c.isDigit = true := by
  rcases List.mem_append.mp hc with hrep | hmem
  · rw [List.eq_of_mem_replicate hrep]; rfl
  · exact hl c hmem

/-! ### Injectivity of `strings.Join(·, "|")` on separator-free fragments -/

theorem bar_split : ∀ (a1 a2 r1 r2 : List Char), '|' ∉ a1 → '|' ∉ a2 →
    a1 ++ '|' :: r1 = a2 ++ '|' :: r2 → a1 = a2 ∧ r1 = r2 := by
  intro a1
  induction a1 with
  | nil =>
    intro a2 r1 r2 h1 h2 heq
    cases a2 with
    | nil =>
      simp only [List.nil_append, List.cons.injEq, true_and] at heq ⊢
      exact heq
    | cons c t =>
      exfalso
      simp only [List.nil_append, List.cons_append, List.cons.injEq] at heq
      exact h2 (heq.1 ▸ List.mem_cons_self c t)
  | cons c t ih =>
    intro a2 r1 r2 h1 h2 heq
    cases a2 with
    | nil =>
      exfalso
      simp only [List.cons_append, List.nil_append, List.cons.injEq] at heq
      exact h1 (heq.1 ▸ List.mem_cons_self c t)
    | cons c' t' =>
      simp only [List.cons_append, List.cons.injEq] at heq
      have ht1 : '|' ∉ t := fun hm => h1 (List.mem_cons_of_mem c hm)
      have ht2 : '|' ∉ t' := fun hm => h2 (List.mem_cons_of_mem c' hm)
      obtain ⟨hts, hrs⟩ := ih t' r1 r2 ht1 ht2 heq.2
      exact ⟨by rw [heq.1, hts], hrs⟩

theorem joinSep_data_cons2 (x y : String) (ys : List String) :
    (joinSep "|" (x :: y :: ys)).data = x.data ++ '|' :: (joinSep "|" (y :: ys)).data := by
  show (x ++ "|" ++ joinSep "|" (y :: ys)).data = _
  rw [String.data_append, String.data_append, List.append_assoc]
  rfl

theorem joinSep_data_ne_nil {x : String} (xs : List String) (hx : x.data ≠ []) :
    (joinSep "|" (x :: xs)).data ≠ [] := by
  cases xs with
  | nil => exact hx
  | cons y ys =>
    rw [joinSep_data_cons2]
    simp [hx]

theorem joinSep_inj : ∀ (l1 l2 : List String),
    (∀ s ∈ l1, s.data ≠ [] ∧ '|' ∉ s.data) → (∀ s ∈ l2, s.data ≠ [] ∧ '|' ∉ s.data) →
    joinSep "|" l1 = joinSep "|" l2 → l1 = l2 := by
  intro l1
  induction l1 with
  | nil =>
    intro l2 _ h2 heq
    cases l2 with
    | nil => rfl
    | cons y ys =>
      exfalso
      have hd := congrArg String.data heq
      exact joinSep_data_ne_nil ys (h2 y (List.mem_cons_self y ys)).1 hd.symm
  | cons x xs ih =>
    intro l2 h1 h2 heq
    cases l2 with
    | nil =>
      exfalso
      have hd := congrArg String.data heq
      exact joinSep_data_ne_nil xs (h1 x (List.mem_cons_self x xs)).1 hd
    | cons y ys =>
      cases xs with
      | nil =>
        cases ys with
        | nil =>
          have : x = y := heq
          rw [this]
        | cons y2 ys2 =>
          exfalso
          have hd := congrArg String.data heq
          rw [joinSep_data_cons2] at hd
          exact (h1 x (List.mem_cons_self x [])).2
            (hd ▸ List.mem_append.mpr (Or.inr (List.mem_cons_self _ _)))
      | cons x2 xs2 =>
        cases ys with
        | nil =>
          exfalso
          have hd := congrArg String.data heq
          rw [joinSep_data_cons2] at hd
          exact (h2 y (List.mem_cons_self y [])).2
            (hd ▸ List.mem_append.mpr (Or.inr (List.mem_cons_self _ _)))
        | cons y2 ys2 =>
          have hd := congrArg String.data heq
          rw [joinSep_data_cons2, joinSep_data_cons2] at hd
          obtain ⟨hxy, htl⟩ := bar_split _ _ _ _
            (h1 x (List.mem_cons_self x _)).2 (h2 y (List.mem_cons_self y _)).2 hd
          have hx : x = y := String.ext hxy
          have ht := ih (y2 :: ys2)
            (fun s hs => h1 s (List.mem_cons_of_mem x hs))
            (fun s hs => h2 s (List.mem_cons_of_mem y hs))
            (String.ext htl)
          rw [hx, ht]

/-! ### Model of `time.Time` as used by the key derivation

Only `IsZero` and `Format("2006-01-02")` (day granularity) are consumed by the
cache subsystem, so an instant is modelled by its calendar day plus an opaque
sub-day remainder.  Go's zero `time.Time` is 0001-01-01 00:00:00 UTC. -/

structure GoTime where
  year : Nat
  month : Nat
  day : Nat
  clock : Nat
deriving DecidableEq

/-- The zero `time.Time` (0001-01-01 00:00:00 UTC). -/
def GoTime.zero : GoTime := ⟨1, 1, 1, 0⟩

/-- `time.Time.IsZero`. -/
def GoTime.isZero (t : GoTime) : Bool := t = GoTime.zero

/-- Character rendering of `t.Format("2006-01-02")` (zero-padded year-month-day). -/
def dateChars (t : GoTime) : List Char :=
  padZero 4 (decChars t.year) ++ '-' :: (padZero 2 (decChars t.month) ++
    '-' :: padZero 2 (decChars t.day))

/-- `t.Format("2006-01-02")`. -/
def formatDay (t : GoTime) : String := ⟨dateChars t⟩

/-! ### API data model (internal/api models)

Translated from the Go structs; `float64` fields (budget_hours,
price_per_hour) are omitted and `time.Time` metadata fields are carried as
epoch-second integers, neither is inspected by the cache subsystem. -/

/-- `api.User` (field `Type` is named `utype`, `type` being reserved). -/
structure User where
  id : Int
  name : String
  email : String
  utype : String
  active : Bool
  timezone : String
  createdOn : Int
  updatedOn : Int
deriving DecidableEq

/-- `api.Project`. -/
structure Project where
  id : Int
  name : String
  code : String
  description : String
  clientID : Int
  active : Bool
  billable : Bool
  color : String
  users : List Int
  managers : List Int
  createdOn : Int
  updatedOn : Int
deriving DecidableEq

/-- `api.TaskList`. -/
structure TaskList where
  id : Int
  name : String
  projectID : Int
  seq : Int
  createdOn : Int
  updatedOn : Int
deriving DecidableEq

/-- `api.Task`. -/
structure Task where
  id : Int
  name : String
  code : String
  projectID : Int
  taskListID : Int
  description : String
  complete : Bool
  billable : Bool
  dueDate : String
  users : List Int
  priority : Int
  createdOn : Int
  updatedOn : Int
deriving DecidableEq

/-- `api.TimeEntry` (included `task`/`project` relations are optional). -/
structure TimeEntry where
  id : Int
  taskID : Int
  userID : Int
  startTime : Int
  endTime : Int
  duration : Int
  description : String
  billable : Bool
  billed : Bool
  createdOn : Int
  updatedOn : Int
  task : Option Task
  project : Option Project
deriving DecidableEq

/-- `api.ProjectListOptions`. -/
structure ProjectListOptions where
  activeOnly : Bool
  clientID : Int
  userID : Int
  includeTasks : Bool
  includeClient : Bool
deriving DecidableEq

/-- `api.TaskListOptions`. -/
structure TaskListOptions where
  projectID : Int
  taskListID : Int
  userID : Int
  includeCompleted : Bool
  includeProject : Bool
deriving DecidableEq

/-- `api.EntryListOptions`. -/
structure EntryListOptions where
  userID : Int
  projectID : Int
  taskID : Int
  startDate : GoTime
  endDate : GoTime
  includeTask : Bool
  includeProject : Bool
deriving DecidableEq

/-! ### Cache-key derivation (internal/cache keys.go)

A `nil` options pointer is modelled as `none`.  The `parts` slice built by
successive conditional `append`s is the concatenation of the conditional
singleton lists, in the source's field order. -/

/-- The `parts` slice built by `projectsKey` for non-nil options. -/
def projectsParts (o : ProjectListOptions) : List String :=
  (if o.activeOnly then ["active=true"] else []) ++
  (if o.clientID > 0 then ["client=" ++ intRepr o.clientID] else []) ++
  (if o.userID > 0 then ["user=" ++ intRepr o.userID] else []) ++
  (if o.includeTasks then ["inc_tasks"] else []) ++
  (if o.includeClient then ["inc_client"] else [])

/-- `projectsKey` — cache key for `GetProjects`. -/
def projectsKey : Option ProjectListOptions → String
  | none => "all"
  | some o => if projectsParts o = [] then "all" else joinSep "|" (projectsParts o)

/-- The `parts` slice built by `tasksKey` for non-nil options (note the
`completed=` fragment is emitted unconditionally). -/
def tasksParts (o : TaskListOptions) : List String :=
  (if o.projectID > 0 then ["project=" ++ intRepr o.projectID] else []) ++
  (if o.taskListID > 0 then ["tasklist=" ++ intRepr o.taskListID] else []) ++
  (if o.userID > 0 then ["user=" ++ intRepr o.userID] else []) ++
  (if o.includeCompleted then ["completed=true"] else ["completed=false"]) ++
  (if o.includeProject then ["inc_project"] else [])

/-- `tasksKey` — cache key for `GetTasks`. -/
def tasksKey : Option TaskListOptions → String
  | none => "all"
  | some o => if tasksParts o = [] then "all" else joinSep "|" (tasksParts o)

/-- The `parts` slice built by `entriesKey` for non-nil options (the
`IncludeTask`/`IncludeProject` fields contribute nothing). -/
def entriesParts (o : EntryListOptions) : List String :=
  (if o.userID > 0 then ["user=" ++ intRepr o.userID] else []) ++
  (if o.projectID > 0 then ["project=" ++ intRepr o.projectID] else []) ++
  (if o.taskID > 0 then ["task=" ++ intRepr o.taskID] else []) ++
  (if !o.startDate.isZero then ["start=" ++ formatDay o.startDate] else []) ++
  (if !o.endDate.isZero then ["end=" ++ formatDay o.endDate] else [])

/-- `entriesKey` — cache key for `GetEntries`. -/
def entriesKey : Option EntryListOptions → String
  | none => "all"
  | some o => if entriesParts o = [] then "all" else joinSep "|" (entriesParts o)

/-! ### The Store (internal/cache JSON-file store)

`json.RawMessage` payloads are modelled by `Payload`, one constructor per Go
type the cache ever serializes; unmarshalling into a Go type is the matching
partial projection. -/

/-- A serialized cache payload (`json.RawMessage` content). -/
inductive Payload where
  | userP (u : User)
  | projectP (p : Project)
  | projectsP (l : List Project)
  | taskP (t : Task)
  | tasksP (l : List Task)
  | tasklistsP (l : List TaskList)
  | entryP (e : TimeEntry)
  | entriesP (l : List TimeEntry)
deriving DecidableEq

/-- `json.Unmarshal` into `api.Project`. -/
def Payload.asProject : Payload → Option Project
  | .projectP p => some p
  | _ => none

/-- `json.Unmarshal` into `[]api.Project`. -/
def Payload.asProjects : Payload → Option (List Project)
  | .projectsP l => some l
  | _ => none

/-- `json.Unmarshal` into `api.Task`. -/
def Payload.asTask : Payload → Option Task
  | .taskP t => some t
  | _ => none

/-- `json.Unmarshal` into `[]api.Task`. -/
def Payload.asTasks : Payload → Option (List Task)
  | .tasksP l => some l
  | _ => none

/-- `json.Unmarshal` into `[]api.TaskList`. -/
def Payload.asTaskLists : Payload → Option (List TaskList)
  | .tasklistsP l => some l
  | _ => none

/-- `json.Unmarshal` into `api.TimeEntry`. -/
def Payload.asEntry : Payload → Option TimeEntry
  | .entryP e => some e
  | _ => none

/-- `json.Unmarshal` into `[]api.TimeEntry`. -/
def Payload.asEntries : Payload → Option (List TimeEntry)
  | .entriesP l => some l
  | _ => none

/-- `json.Unmarshal` into `api.User`. -/
def Payload.asUser : Payload → Option User
  | .userP u => some u
  | _ => none

/-- `json.Unmarshal` into the anonymous `struct{ID int; Name string}` used by
`LookupName` on the `project` bucket: succeeds on any object document (an
absent `name` field decodes as `""`), fails on array documents. -/
def Payload.idName : Payload → Option (Int × String)
  | .userP u => some (u.id, u.name)
  | .projectP p => some (p.id, p.name)
  | .taskP t => some (t.id, t.name)
  | .entryP e => some (e.id, "")
  | _ => none

/-- `json.Unmarshal` into the anonymous `struct{ID int; Name string;
ProjectID int}` used by `LookupName` on the `task` bucket (absent fields
decode as zero values). -/
def Payload.idNameProject : Payload → Option (Int × String × Int)
  | .userP u => some (u.id, u.name, 0)
  | .projectP p => some (p.id, p.name, 0)
  | .taskP t => some (t.id, t.name, t.projectID)
  | .entryP e => some (e.id, "", 0)
  | _ => none

/-- `cacheEntry`: a single cached value with its write timestamp and TTL. -/
structure CacheEntry where
  data : Payload
  cachedAt : Int
  ttlSeconds : Int
deriving DecidableEq

/-- One resource type's bucket (`map[string]cacheEntry`). -/
abbrev Bucket := List (String × CacheEntry)

/-- `cacheData.Entries` (`map[string]map[string]cacheEntry`). -/
abbrev StoreData := List (String × Bucket)

/-- `DefaultTTL`, in the seconds granularity the store persists
(`int64(ttl.Seconds())`). -/
def DefaultTTL : List (String × Int) :=
  [("me", 86400), ("projects", 3600), ("project", 3600), ("project_by_name", 3600),
   ("tasks", 1800), ("task", 1800), ("task_by_name", 1800), ("tasklists", 3600),
   ("entries", 300), ("entry", 300), ("active_entry", 0)]

/-- `getTTL`: table lookup with a 1-hour default for unknown types. -/
def getTTL (rt : String) : Int :=
  match mfind rt DefaultTTL with
  | some ttl => ttl
  | none => 3600

/-- The bucket for a resource type (a `nil` Go map ranges as empty). -/
def bucketOf (st : StoreData) (rt : String) : Bucket :=
  match mfind rt st with
  | some b => b
  | none => []

/-- The raw entry stored under `(rt, k)`, if any. -/
def lookupEntry (st : StoreData) (rt k : String) : Option CacheEntry :=
  (mfind rt st).bind (mfind k)

/-- `Store.Get`: the payload iff an entry exists (bucket present, key present)
and is fresh (`now - cached_at ≤ ttl_seconds`); `ErrCacheMiss` is `none`. -/
def storeGet (st : StoreData) (rt k : String) (now : Int) : Option Payload :=
  (lookupEntry st rt k).bind fun e =>
    if now - e.cachedAt > e.ttlSeconds then none else some e.data

/-- `Store.GetStale`: the payload iff an entry exists, regardless of age. -/
def storeGetStale (st : StoreData) (rt k : String) : Option Payload :=
  (lookupEntry st rt k).map CacheEntry.data

/-- `Store.Set`: no-op when the type's TTL is zero; otherwise stores the
serialized value with the current timestamp and TTL (the synchronous disk
flush is outside the model). -/
def storeSet (st : StoreData) (rt k : String) (v : Payload) (now : Int) : StoreData :=
  let ttl := getTTL rt
  if ttl = 0 then st
  else minsert rt (minsert k ⟨v, now, ttl⟩ (bucketOf st rt)) st

/-- `Store.InvalidateType`: deletes the whole bucket of each named type. -/
def invalidateType (st : StoreData) (rts : List String) : StoreData :=
  rts.foldl (fun m rt => mdelete rt m) st

/-- `Store.IndexName`: a no-op in the JSON store (the name index is implicit
in the cached entries). -/
def indexName (st : StoreData) (rt nameLower : String) (id projectID : Int) : StoreData :=
  st

/-- The `project`-bucket scan of `Store.LookupName`. -/
def scanProject : Bucket → String → Option Int
  | [], _ => none
  | (_, e) :: rest, nameLower =>
    match e.data.idName with
    | some (pid, pname) =>
      if strContains (strToLower pname) nameLower then some pid
      else scanProject rest nameLower
    | none => scanProject rest nameLower

/-- The `task`-bucket scan of `Store.LookupName` (exact parent-project match,
then case-insensitive substring on the cached name). -/
def scanTask : Bucket → String → Int → Option Int
  | [], _, _ => none
  | (_, e) :: rest, nameLower, projectID =>
    match e.data.idNameProject with
    | some (tid, tname, tpid) =>
      if tpid = projectID && strContains (strToLower tname) nameLower then some tid
      else scanTask rest nameLower projectID
    | none => scanTask rest nameLower projectID

/-- `Store.LookupName` (`strings.ToLower` agrees with `String.toLower` on the
ASCII names involved). -/
def lookupName (st : StoreData) (rt nameLower : String) (projectID : Int) : Option Int :=
  if rt = "project" then scanProject (bucketOf st "project") nameLower
  else if rt = "task" then scanTask (bucketOf st "task") nameLower projectID
  else none

theorem storeGet_congr {st st' : StoreData} {rt : String}
    (h : mfind rt st = mfind rt st') (k : String) (now : Int) :
    storeGet st rt k now = storeGet st' rt k now := by
  unfold storeGet lookupEntry
  rw [h]

theorem storeGetStale_congr {st st' : StoreData} {rt : String}
    (h : mfind rt st = mfind rt st') (k : String) :
    storeGetStale st rt k = storeGetStale st' rt k := by
  unfold storeGetStale lookupEntry
  rw [h]

/-! ### The CachedClient decorator (internal/cache/cached_client.go)

Each operation is a function of the store, the current time, the operation's
arguments, and the result the wrapped client's call would produce
(`inner`).  Read operations also report whether the wrapped client was
invoked. -/

/-- A Go error as classified by `isNetworkError`: either a structured
`*api.APIError` or any other error, represented by its `Error()` text. -/
inductive GoErr where
  | apiError (statusCode : Int) (message : String)
  | otherErr (msg : String)
deriving DecidableEq

/-- `isNetworkError`: an `*api.APIError` means the server responded (not a
network error); otherwise match known transport-failure substrings. -/
def isNetworkError : GoErr → Bool
  | .apiError _ _ => false
  | .otherErr msg =>
    strContains msg "connection refused" || strContains msg "no such host" ||
    strContains msg "network is unreachable" || strContains msg "i/o timeout" ||
    strContains msg "dial tcp"

/-- Outcome of a CachedClient read: result, store afterwards, and whether the
wrapped client was invoked. -/
structure ReadResult (α : Type) where
  result : Except GoErr α
  store : StoreData
  innerCalled : Bool

/-- `indexProject`: feed one project into the (no-op) name index. -/
def indexProject (st : StoreData) (p : Project) : StoreData :=
  indexName st "project" (strToLower p.name) p.id 0

/-- `indexProjects`. -/
def indexProjects (st : StoreData) (ps : List Project) : StoreData :=
  ps.foldl indexProject st

/-- `indexTask`. -/
def indexTask (st : StoreData) (t : Task) : StoreData :=
  indexName st "task" (strToLower t.name) t.id t.projectID

/-- `indexTasks`. -/
def indexTasks (st : StoreData) (ts : List Task) : StoreData :=
  ts.foldl indexTask st

/-- `CachedClient.GetMe` (no stale fallback). -/
def getMe (st : StoreData) (now : Int) (inner : Except GoErr User) : ReadResult User :=
  match (storeGet st "me" "me" now).bind Payload.asUser with
  | some cached => ⟨.ok cached, st, false⟩
  | none =>
    match inner with
    | .ok user => ⟨.ok user, storeSet st "me" "me" (.userP user) now, true⟩
    | .error e => ⟨.error e, st, true⟩

/-- `CachedClient.GetProjects` (stale fallback on network errors). -/
def getProjects (st : StoreData) (now : Int) (opts : Option ProjectListOptions)
    (inner : Except GoErr (List Project)) : ReadResult (List Project) :=
  match (storeGet st "projects" (projectsKey opts) now).bind Payload.asProjects with
  | some cached => ⟨.ok cached, st, false⟩
  | none =>
    match inner with
    | .ok projects =>
      ⟨.ok projects, indexProjects (storeSet st "projects" (projectsKey opts)
        (.projectsP projects) now) projects, true⟩
    | .error e =>
      if isNetworkError e then
        match (storeGetStale st "projects" (projectsKey opts)).bind Payload.asProjects with
        | some stale => ⟨.ok stale, st, true⟩
        | none => ⟨.error e, st, true⟩
      else ⟨.error e, st, true⟩

/-- `CachedClient.GetProject` (stale fallback on network errors). -/
def getProject (st : StoreData) (now : Int) (id : Int)
    (inner : Except GoErr Project) : ReadResult Project :=
  match (storeGet st "project" (intRepr id) now).bind Payload.asProject with
  | some cached => ⟨.ok cached, st, false⟩
  | none =>
    match inner with
    | .ok project =>
      ⟨.ok project, indexProject (storeSet st "project" (intRepr id)
        (.projectP project) now) project, true⟩
    | .error e =>
      if isNetworkError e then
        match (storeGetStale st "project" (intRepr id)).bind Payload.asProject with
        | some stale => ⟨.ok stale, st, true⟩
        | none => ⟨.error e, st, true⟩
      else ⟨.error e, st, true⟩

/-- `CachedClient.GetTasks` (stale fallback on network errors). -/
def getTasks (st : StoreData) (now : Int) (opts : Option TaskListOptions)
    (inner : Except GoErr (List Task)) : ReadResult (List Task) :=
  match (storeGet st "tasks" (tasksKey opts) now).bind Payload.asTasks with
  | some cached => ⟨.ok cached, st, false⟩
  | none =>
    match inner with
    | .ok tasks =>
      ⟨.ok tasks, indexTasks (storeSet st "tasks" (tasksKey opts)
        (.tasksP tasks) now) tasks, true⟩
    | .error e =>
      if isNetworkError e then
        match (storeGetStale st "tasks" (tasksKey opts)).bind Payload.asTasks with
        | some stale => ⟨.ok stale, st, true⟩
        | none => ⟨.error e, st, true⟩
      else ⟨.error e, st, true⟩

/-- `CachedClient.GetTask` (stale fallback on network errors). -/
def getTask (st : StoreData) (now : Int) (id : Int)
    (inner : Except GoErr Task) : ReadResult Task :=
  match (storeGet st "task" (intRepr id) now).bind Payload.asTask with
  | some cached => ⟨.ok cached, st, false⟩
  | none =>
    match inner with
    | .ok task =>
      ⟨.ok task, indexTask (storeSet st "task" (intRepr id) (.taskP task) now) task, true⟩
    | .error e =>
      if isNetworkError e then
        match (storeGetStale st "task" (intRepr id)).bind Payload.asTask with
        | some stale => ⟨.ok stale, st, true⟩
        | none => ⟨.error e, st, true⟩
      else ⟨.error e, st, true⟩

/-- `CachedClient.GetTaskLists` (no stale fallback). -/
def getTaskLists (st : StoreData) (now : Int) (projectID : Int)
    (inner : Except GoErr (List TaskList)) : ReadResult (List TaskList) :=
  match (storeGet st "tasklists" ("project=" ++ intRepr projectID) now).bind
      Payload.asTaskLists with
  | some cached => ⟨.ok cached, st, false⟩
  | none =>
    match inner with
    | .ok lists =>
      ⟨.ok lists, storeSet st "tasklists" ("project=" ++ intRepr projectID)
        (.tasklistsP lists) now, true⟩
    | .error e => ⟨.error e, st, true⟩

/-- `CachedClient.GetEntries` (stale fallback on network errors). -/
def getEntries (st : StoreData) (now : Int) (opts : Option EntryListOptions)
    (inner : Except GoErr (List TimeEntry)) : ReadResult (List TimeEntry) :=
  match (storeGet st "entries" (entriesKey opts) now).bind Payload.asEntries with
  | some cached => ⟨.ok cached, st, false⟩
  | none =>
    match inner with
    | .ok entries =>
      ⟨.ok entries, storeSet st "entries" (entriesKey opts) (.entriesP entries) now, true⟩
    | .error e =>
      if isNetworkError e then
        match (storeGetStale st "entries" (entriesKey opts)).bind Payload.asEntries with
        | some stale => ⟨.ok stale, st, true⟩
        | none => ⟨.error e, st, true⟩
      else ⟨.error e, st, true⟩

/-- `CachedClient.GetEntry` — note: no stale fallback in the source. -/
def getEntry (st : StoreData) (now : Int) (id : Int)
    (inner : Except GoErr TimeEntry) : ReadResult TimeEntry :=
  match (storeGet st "entry" (intRepr id) now).bind Payload.asEntry with
  | some cached => ⟨.ok cached, st, false⟩
  | none =>
    match inner with
    | .ok entry => ⟨.ok entry, storeSet st "entry" (intRepr id) (.entryP entry) now, true⟩
    | .error e => ⟨.error e, st, true⟩

/-- `CachedClient.CreateProject`: on success, invalidate `projects`, cache the
created project under its ID, and index it. -/
def createProject (st : StoreData) (now : Int) (inner : Except GoErr Project) :
    Except GoErr Project × StoreData :=
  match inner with
  | .error e => (.error e, st)
  | .ok project =>
    (.ok project, indexProject
      (storeSet (invalidateType st ["projects"]) "project" (intRepr project.id)
        (.projectP project) now) project)

/-- `CachedClient.ArchiveProject`. -/
def archiveProject (st : StoreData) (inner : Except GoErr Unit) :
    Except GoErr Unit × StoreData :=
  match inner with
  | .error e => (.error e, st)
  | .ok _ => (.ok (), invalidateType st ["projects", "project", "project_by_name"])

/-- `CachedClient.CreateTask`: on success, invalidate `tasks`, cache the
created task under its ID, and index it. -/
def createTask (st : StoreData) (now : Int) (inner : Except GoErr Task) :
    Except GoErr Task × StoreData :=
  match inner with
  | .error e => (.error e, st)
  | .ok task =>
    (.ok task, indexTask
      (storeSet (invalidateType st ["tasks"]) "task" (intRepr task.id)
        (.taskP task) now) task)

/-- `CachedClient.CompleteTask`. -/
def completeTask (st : StoreData) (inner : Except GoErr Unit) :
    Except GoErr Unit × StoreData :=
  match inner with
  | .error e => (.error e, st)
  | .ok _ => (.ok (), invalidateType st ["tasks", "task", "task_by_name"])

/-- `CachedClient.CreateEntry`: invalidates `entries` and `active_entry`. -/
def createEntry (st : StoreData) (inner : Except GoErr TimeEntry) :
    Except GoErr TimeEntry × StoreData :=
  match inner with
  | .error e => (.error e, st)
  | .ok entry => (.ok entry, invalidateType st ["entries", "active_entry"])

/-- `CachedClient.UpdateEntry`: invalidates `entries` and `entry`. -/
def updateEntry (st : StoreData) (inner : Except GoErr TimeEntry) :
    Except GoErr TimeEntry × StoreData :=
  match inner with
  | .error e => (.error e, st)
  | .ok entry => (.ok entry, invalidateType st ["entries", "entry"])

/-- `CachedClient.DeleteEntry`: invalidates `entries` and `entry`. -/
def deleteEntry (st : StoreData) (inner : Except GoErr Unit) :
    Except GoErr Unit × StoreData :=
  match inner with
  | .error e => (.error e, st)
  | .ok _ => (.ok (), invalidateType st ["entries", "entry"])

/-- `CachedClient.StartEntry`: invalidates `entries` and `active_entry`. -/
def startEntry (st : StoreData) (inner : Except GoErr TimeEntry) :
    Except GoErr TimeEntry × StoreData :=
  match inner with
  | .error e => (.error e, st)
  | .ok entry => (.ok entry, invalidateType st ["entries", "active_entry"])

/-- `CachedClient.StopEntry`: invalidates `entries` and `active_entry`. -/
def stopEntry (st : StoreData) (inner : Except GoErr TimeEntry) :
    Except GoErr TimeEntry × StoreData :=
  match inner with
  | .error e => (.error e, st)
  | .ok entry => (.ok entry, invalidateType st ["entries", "active_entry"])

/-! ### Store lemmas -/

theorem mfind_invalidateType_not_mem {rt : String} {rts : List String} (h : rt ∉ rts)
    (st : StoreData) : mfind rt (invalidateType st rts) = mfind rt st := by
  induction rts generalizing st with
  | nil => rfl
  | cons t ts ih =>
    have hne : rt ≠ t := fun he => h (he ▸ List.mem_cons_self t ts)
    show mfind rt (invalidateType (mdelete t st) ts) = _
    rw [ih (fun hm => h (List.mem_cons_of_mem t hm)), mfind_mdelete_ne hne]

theorem mfind_invalidateType_mem {rt : String} {rts : List String} (h : rt ∈ rts)
    (st : StoreData) : mfind rt (invalidateType st rts) = none := by
  induction rts generalizing st with
  | nil => cases h
  | cons t ts ih =>
    show mfind rt (invalidateType (mdelete t st) ts) = none
    by_cases hts : rt ∈ ts
    · exact ih hts (mdelete t st)
    · have hrt : rt = t := by
        rcases List.mem_cons.mp h with he | hm
        · exact he
        · exact absurd hm hts
      subst hrt
      rw [mfind_invalidateType_not_mem hts, mfind_mdelete_self]

/-- Freshly written entries are immediately readable (used by C1 and C10). -/
theorem storeGet_storeSet_self (st : StoreData) (rt k : String) (p : Payload) (now : Int)
    (h : getTTL rt ≠ 0) (hpos : 0 ≤ getTTL rt) :
    storeGet (storeSet st rt k p now) rt k now = some p := by
  unfold storeSet storeGet lookupEntry
  simp only [if_neg h, mfind_minsert_self, Option.some_bind]
  rw [if_neg (by omega : ¬ now - now > getTTL rt)]

/-! ### Claim theorems -/

/-- C1: for every resource type whose configured TTL is positive, `Set`
followed immediately by `Get` on the same (type, key) succeeds and yields the
written payload unchanged. -/
theorem claim1_set_then_get_roundtrip (st : StoreData) (rt k : String) (p : Payload)
    (now : Int) (h : 0 < getTTL rt) :
    storeGet (storeSet st rt k p now) rt k now = some p :=
  storeGet_storeSet_self st rt k p now (by omega) (by omega)

theorem claim1_witness :
    0 < getTTL "projects" ∧
      storeGet (storeSet [] "projects" "all" (.projectsP []) 5) "projects" "all" 5 =
        some (.projectsP []) :=
  ⟨by decide, claim1_set_then_get_roundtrip [] "projects" "all" (.projectsP []) 5 (by decide)⟩

/-- C2: an entry whose age exceeds its TTL is invisible to `Get` but returned
by `GetStale`; `Get` never returns a payload whose age exceeds its TTL. -/
theorem claim2_expiry_get_vs_getStale (st : StoreData) (rt k : String) (now : Int)
    (e : CacheEntry) (h : lookupEntry st rt k = some e) :
    (now - e.cachedAt > e.ttlSeconds →
      storeGet st rt k now = none ∧ storeGetStale st rt k = some e.data) ∧
    (∀ v, storeGet st rt k now = some v →
      now - e.cachedAt ≤ e.ttlSeconds ∧ v = e.data) := by
  unfold storeGet storeGetStale
  rw [h]
  constructor
  · intro hexp
    refine ⟨?_, rfl⟩
    show (if now - e.cachedAt > e.ttlSeconds then none else some e.data : Option Payload)
      = none
    rw [if_pos hexp]
  · intro v hv
    have hv2 : (if now - e.cachedAt > e.ttlSeconds then none
        else some e.data : Option Payload) = some v := hv
    by_cases hc : now - e.cachedAt > e.ttlSeconds
    · rw [if_pos hc] at hv2; cases hv2
    · rw [if_neg hc] at hv2
      exact ⟨by omega, (Option.some.inj hv2).symm⟩

theorem claim2_witness :
    storeGet [("projects", [("all", (⟨.projectsP [], 0, 3600⟩ : CacheEntry))])]
        "projects" "all" 4000 = none ∧
      storeGetStale [("projects", [("all", (⟨.projectsP [], 0, 3600⟩ : CacheEntry))])]
        "projects" "all" = some (.projectsP []) :=
  (claim2_expiry_get_vs_getStale
    [("projects", [("all", (⟨.projectsP [], 0, 3600⟩ : CacheEntry))])]
    "projects" "all" 4000 ⟨.projectsP [], 0, 3600⟩ (by decide)).1 (by decide)

/-- C3: for a resource type with TTL zero, `Set` leaves the document
unchanged, and where no entry pre-exists for the key, `Get` and `GetStale`
both report a cache miss. -/
theorem claim3_ttl_zero_never_written (st : StoreData) (rt k : String) (p : Payload)
    (now : Int) (h : getTTL rt = 0) :
    storeSet st rt k p now = st ∧
    (lookupEntry st rt k = none →
      storeGet st rt k now = none ∧ storeGetStale st rt k = none) := by
  constructor
  · unfold storeSet
    simp [h]
  · intro habs
    unfold storeGet storeGetStale
    rw [habs]
    exact ⟨rfl, rfl⟩

theorem claim3_witness :
    getTTL "active_entry" = 0 ∧
      storeSet [] "active_entry" "1" (.entryP ⟨1, 0, 0, 0, 0, 0, "", true, false, 0, 0,
        none, none⟩) 7 = [] ∧
      storeGet [] "active_entry" "1" 7 = none ∧
      storeGetStale [] "active_entry" "1" = none := by
  have h := claim3_ttl_zero_never_written [] "active_entry" "1"
    (.entryP ⟨1, 0, 0, 0, 0, 0, "", true, false, 0, 0, none, none⟩) 7 (by decide)
  exact ⟨by decide, h.1, h.2 (by decide)⟩

/-- C6: every mutating CachedClient operation propagates a failed wrapped-client
call unchanged and leaves the cache store untouched. -/
theorem claim6_mutation_error_leaves_cache (st : StoreData) (now : Int) (e : GoErr) :
    createProject st now (.error e) = (.error e, st) ∧
    archiveProject st (.error e) = (.error e, st) ∧
    createTask st now (.error e) = (.error e, st) ∧
    completeTask st (.error e) = (.error e, st) ∧
    createEntry st (.error e) = (.error e, st) ∧
    updateEntry st (.error e) = (.error e, st) ∧
    deleteEntry st (.error e) = (.error e, st) ∧
    startEntry st (.error e) = (.error e, st) ∧
    stopEntry st (.error e) = (.error e, st) :=
  ⟨rfl, rfl, rfl, rfl, rfl, rfl, rfl, rfl, rfl⟩

/-- C7: `InvalidateType` empties exactly the named types' buckets; every other
bucket is unchanged and its entries stay observable by `Get`/`GetStale`. -/
theorem claim7_invalidateType_frame (st : StoreData) (rts : List String) (rt : String)
    (k : String) (now : Int) :
    (rt ∈ rts →
      storeGet (invalidateType st rts) rt k now = none ∧
      storeGetStale (invalidateType st rts) rt k = none) ∧
    (rt ∉ rts →
      mfind rt (invalidateType st rts) = mfind rt st ∧
      storeGet (invalidateType st rts) rt k now = storeGet st rt k now ∧
      storeGetStale (invalidateType st rts) rt k = storeGetStale st rt k) := by
  constructor
  · intro hm
    have h0 := mfind_invalidateType_mem hm st
    unfold storeGet storeGetStale lookupEntry
    rw [h0]
    exact ⟨rfl, rfl⟩
  · intro hnm
    have h0 := mfind_invalidateType_not_mem hnm st
    exact ⟨h0, storeGet_congr h0 k now, storeGetStale_congr h0 k⟩

theorem claim7_witness :
    (storeGet (invalidateType [("projects", [("all", (⟨.projectsP [], 0, 3600⟩ : CacheEntry))]),
        ("tasks", [("all", (⟨.tasksP [], 0, 1800⟩ : CacheEntry))])] ["projects"])
        "projects" "all" 5 = none ∧
      storeGetStale (invalidateType [("projects", [("all", (⟨.projectsP [], 0, 3600⟩ : CacheEntry))]),
        ("tasks", [("all", (⟨.tasksP [], 0, 1800⟩ : CacheEntry))])] ["projects"])
        "projects" "all" = none) ∧
    storeGetStale (invalidateType [("projects", [("all", (⟨.projectsP [], 0, 3600⟩ : CacheEntry))]),
        ("tasks", [("all", (⟨.tasksP [], 0, 1800⟩ : CacheEntry))])] ["projects"])
        "tasks" "all" = storeGetStale [("projects", [("all", (⟨.projectsP [], 0, 3600⟩ : CacheEntry))]),
        ("tasks", [("all", (⟨.tasksP [], 0, 1800⟩ : CacheEntry))])] "tasks" "all" :=
  ⟨(claim7_invalidateType_frame
      [("projects", [("all", (⟨.projectsP [], 0, 3600⟩ : CacheEntry))]),
       ("tasks", [("all", (⟨.tasksP [], 0, 1800⟩ : CacheEntry))])] ["projects"]
      "projects" "all" 5).1 (by decide),
   ((claim7_invalidateType_frame
      [("projects", [("all", (⟨.projectsP [], 0, 3600⟩ : CacheEntry))]),
       ("tasks", [("all", (⟨.tasksP [], 0, 1800⟩ : CacheEntry))])] ["projects"]
      "tasks" "all" 5).2 (by decide)).2.2⟩


/-! ### Frame lemma for `storeSet` and concrete sample values -/

theorem mfind_storeSet_ne {rt' rt : String} (h : rt' ≠ rt) (st : StoreData) (k : String)
    (v : Payload) (now : Int) : mfind rt' (storeSet st rt k v now) = mfind rt' st := by
  unfold storeSet
  by_cases h0 : getTTL rt = 0
  · simp [h0]
  · simp [h0, mfind_minsert_ne h]

/-- A concrete time entry used in counterexample and witness scenarios. -/
def teX : TimeEntry := ⟨1, 100, 1, 0, 0, 0, "", true, false, 0, 0, none, none⟩

/-- A concrete task (named "Design Homepage", parent project 5) used in
counterexample and witness scenarios. -/
def tkX : Task := ⟨7, "Design Homepage", "", 5, 0, "", false, true, "", [], 0, 0, 0⟩

/-- A concrete project used in witness scenarios. -/
def pX : Project := ⟨1, "Project 1", "", "", 0, true, true, "", [], [], 0, 0⟩

/-- A concrete transport error (classified as a network error). -/
def netErrX : GoErr := .otherErr "dial tcp 127.0.0.1:443: connection refused"

/-- C5 (counterexample): a successful `CreateEntry` does not invalidate the
`entry` bucket — a pre-existing `entry` entry is still observable afterwards,
contradicting the claim that every entry mutation invalidates all three of
`entries`, `entry` and `active_entry`. -/
theorem claim5_counterexample :
    (createEntry [("entry", [("1", (⟨.entryP teX, 0, 300⟩ : CacheEntry))])] (.ok teX)).1
        = .ok teX ∧
    storeGetStale (createEntry [("entry", [("1", (⟨.entryP teX, 0, 300⟩ : CacheEntry))])]
        (.ok teX)).2 "entry" "1" = some (.entryP teX) :=
  ⟨rfl, by decide⟩

/-- C5 (amended): on success, `CreateEntry`/`StartEntry`/`StopEntry` invalidate
exactly `entries` and `active_entry`, while `UpdateEntry`/`DeleteEntry`
invalidate exactly `entries` and `entry`; every other bucket is unchanged. -/
theorem claim5_entry_mutation_invalidation (st : StoreData) (en : TimeEntry) (rt : String) :
    ((createEntry st (.ok en)).1 = .ok en ∧
      mfind "entries" (createEntry st (.ok en)).2 = none ∧
      mfind "active_entry" (createEntry st (.ok en)).2 = none ∧
      (rt ∉ ["entries", "active_entry"] →
        mfind rt (createEntry st (.ok en)).2 = mfind rt st)) ∧
    ((startEntry st (.ok en)).1 = .ok en ∧
      mfind "entries" (startEntry st (.ok en)).2 = none ∧
      mfind "active_entry" (startEntry st (.ok en)).2 = none ∧
      (rt ∉ ["entries", "active_entry"] →
        mfind rt (startEntry st (.ok en)).2 = mfind rt st)) ∧
    ((stopEntry st (.ok en)).1 = .ok en ∧
      mfind "entries" (stopEntry st (.ok en)).2 = none ∧
      mfind "active_entry" (stopEntry st (.ok en)).2 = none ∧
      (rt ∉ ["entries", "active_entry"] →
        mfind rt (stopEntry st (.ok en)).2 = mfind rt st)) ∧
    ((updateEntry st (.ok en)).1 = .ok en ∧
      mfind "entries" (updateEntry st (.ok en)).2 = none ∧
      mfind "entry" (updateEntry st (.ok en)).2 = none ∧
      (rt ∉ ["entries", "entry"] →
        mfind rt (updateEntry st (.ok en)).2 = mfind rt st)) ∧
    ((deleteEntry st (.ok ())).1 = .ok () ∧
      mfind "entries" (deleteEntry st (.ok ())).2 = none ∧
      mfind "entry" (deleteEntry st (.ok ())).2 = none ∧
      (rt ∉ ["entries", "entry"] →
        mfind rt (deleteEntry st (.ok ())).2 = mfind rt st)) := by
  refine ⟨⟨rfl, ?_, ?_, ?_⟩, ⟨rfl, ?_, ?_, ?_⟩, ⟨rfl, ?_, ?_, ?_⟩,
    ⟨rfl, ?_, ?_, ?_⟩, ⟨rfl, ?_, ?_, ?_⟩⟩
  · exact mfind_invalidateType_mem (by simp) st
  · exact mfind_invalidateType_mem (by simp) st
  · exact fun h => mfind_invalidateType_not_mem h st
  · exact mfind_invalidateType_mem (by simp) st
  · exact mfind_invalidateType_mem (by simp) st
  · exact fun h => mfind_invalidateType_not_mem h st
  · exact mfind_invalidateType_mem (by simp) st
  · exact mfind_invalidateType_mem (by simp) st
  · exact fun h => mfind_invalidateType_not_mem h st
  · exact mfind_invalidateType_mem (by simp) st
  · exact mfind_invalidateType_mem (by simp) st
  · exact fun h => mfind_invalidateType_not_mem h st
  · exact mfind_invalidateType_mem (by simp) st
  · exact mfind_invalidateType_mem (by simp) st
  · exact fun h => mfind_invalidateType_not_mem h st

theorem claim5_witness :
    mfind "task" (createEntry [("task", [("1", (⟨.taskP tkX, 0, 1800⟩ : CacheEntry))])]
        (.ok teX)).2 =
      mfind "task" [("task", [("1", (⟨.taskP tkX, 0, 1800⟩ : CacheEntry))])] ∧
    mfind "entries" (createEntry [("task", [("1", (⟨.taskP tkX, 0, 1800⟩ : CacheEntry))])]
        (.ok teX)).2 = none :=
  ⟨((claim5_entry_mutation_invalidation
      [("task", [("1", (⟨.taskP tkX, 0, 1800⟩ : CacheEntry))])] teX "task").1.2.2.2
      (by decide)),
   (claim5_entry_mutation_invalidation
      [("task", [("1", (⟨.taskP tkX, 0, 1800⟩ : CacheEntry))])] teX "task").1.2.1⟩

/-- C10: a successful `CreateProject` (resp. `CreateTask`) invalidates the list
bucket and also writes the created entity into the individual `project`
(resp. `task`) bucket keyed by its ID, so an immediately following
`GetProject(id)` (resp. `GetTask(id)`) is served from the cache without
invoking the wrapped client. -/
theorem claim10_create_then_get_cached (st : StoreData) (now : Int) (p : Project) (t : Task)
    (innerP : Except GoErr Project) (innerT : Except GoErr Task) :
    mfind "projects" (createProject st now (.ok p)).2 = none ∧
    getProject (createProject st now (.ok p)).2 now p.id innerP =
      ⟨.ok p, (createProject st now (.ok p)).2, false⟩ ∧
    mfind "tasks" (createTask st now (.ok t)).2 = none ∧
    getTask (createTask st now (.ok t)).2 now t.id innerT =
      ⟨.ok t, (createTask st now (.ok t)).2, false⟩ := by
  refine ⟨?_, ?_, ?_, ?_⟩
  · show mfind "projects"
      (storeSet (invalidateType st ["projects"]) "project" (intRepr p.id)
        (.projectP p) now) = none
    rw [mfind_storeSet_ne (by decide)]
    exact mfind_invalidateType_mem (by simp) st
  · have hsg : storeGet (createProject st now (.ok p)).2 "project" (intRepr p.id) now
        = some (.projectP p) :=
      storeGet_storeSet_self (invalidateType st ["projects"]) "project" (intRepr p.id)
        (.projectP p) now (by decide) (by decide)
    unfold getProject
    rw [hsg]
    rfl
  · show mfind "tasks"
      (storeSet (invalidateType st ["tasks"]) "task" (intRepr t.id)
        (.taskP t) now) = none
    rw [mfind_storeSet_ne (by decide)]
    exact mfind_invalidateType_mem (by simp) st
  · have hsg : storeGet (createTask st now (.ok t)).2 "task" (intRepr t.id) now
        = some (.taskP t) :=
      storeGet_storeSet_self (invalidateType st ["tasks"]) "task" (intRepr t.id)
        (.taskP t) now (by decide) (by decide)
    unfold getTask
    rw [hsg]
    rfl


/-- C4 (counterexample): `GetEntry` is a "get one" read operation, yet on a
transport error with a stale value present it propagates the error instead of
returning the stale value — the read-path fallback is not uniform across all
get-one/list operations. -/
theorem claim4_counterexample :
    isNetworkError netErrX = true ∧
    storeGetStale [("entry", [("1", (⟨.entryP teX, 0, 300⟩ : CacheEntry))])] "entry" "1"
      = some (.entryP teX) ∧
    (getEntry [("entry", [("1", (⟨.entryP teX, 0, 300⟩ : CacheEntry))])] 10000 1
      (.error netErrX)).result = .error netErrX ∧
    (getEntry [("entry", [("1", (⟨.entryP teX, 0, 300⟩ : CacheEntry))])] 10000 1
      (.error netErrX)).innerCalled = true :=
  ⟨by decide, by decide, rfl, rfl⟩

/-- C4 (amended): on a cache miss, `GetProjects`/`GetProject`/`GetTasks`/
`GetTask`/`GetEntries` classify a failed wrapped-client call: a transport
error with a stale entry present yields the stale value as a success with the
store unchanged; a structured `*api.APIError` is propagated unchanged with no
stale attempt; a transport error with no stale value propagates the original
error.  `GetEntry` (like `GetTaskLists` and `GetMe`) has no stale fallback and
propagates every error unchanged. -/
theorem claim4_read_error_paths
    (st stN : StoreData) (now : Int) (e : GoErr)
    (opts : Option ProjectListOptions) (topts : Option TaskListOptions)
    (eopts : Option EntryListOptions) (pid tid eid tlid : Int)
    (ps : List Project) (p : Project) (ts : List Task) (tk : Task) (es : List TimeEntry)
    (hnet : isNetworkError e = true)
    (hm1 : (storeGet st "projects" (projectsKey opts) now).bind Payload.asProjects = none)
    (hs1 : (storeGetStale st "projects" (projectsKey opts)).bind Payload.asProjects
      = some ps)
    (hm2 : (storeGet st "project" (intRepr pid) now).bind Payload.asProject = none)
    (hs2 : (storeGetStale st "project" (intRepr pid)).bind Payload.asProject = some p)
    (hm3 : (storeGet st "tasks" (tasksKey topts) now).bind Payload.asTasks = none)
    (hs3 : (storeGetStale st "tasks" (tasksKey topts)).bind Payload.asTasks = some ts)
    (hm4 : (storeGet st "task" (intRepr tid) now).bind Payload.asTask = none)
    (hs4 : (storeGetStale st "task" (intRepr tid)).bind Payload.asTask = some tk)
    (hm5 : (storeGet st "entries" (entriesKey eopts) now).bind Payload.asEntries = none)
    (hs5 : (storeGetStale st "entries" (entriesKey eopts)).bind Payload.asEntries
      = some es)
    (hm6 : (storeGet st "entry" (intRepr eid) now).bind Payload.asEntry = none)
    (hm7 : (storeGet st "tasklists" ("project=" ++ intRepr tlid) now).bind
      Payload.asTaskLists = none)
    (hm8 : (storeGet st "me" "me" now).bind Payload.asUser = none)
    (hmN1 : (storeGet stN "projects" (projectsKey opts) now).bind Payload.asProjects = none)
    (hsN1 : (storeGetStale stN "projects" (projectsKey opts)).bind Payload.asProjects
      = none)
    (hmN2 : (storeGet stN "project" (intRepr pid) now).bind Payload.asProject = none)
    (hsN2 : (storeGetStale stN "project" (intRepr pid)).bind Payload.asProject = none)
    (hmN3 : (storeGet stN "tasks" (tasksKey topts) now).bind Payload.asTasks = none)
    (hsN3 : (storeGetStale stN "tasks" (tasksKey topts)).bind Payload.asTasks = none)
    (hmN4 : (storeGet stN "task" (intRepr tid) now).bind Payload.asTask = none)
    (hsN4 : (storeGetStale stN "task" (intRepr tid)).bind Payload.asTask = none)
    (hmN5 : (storeGet stN "entries" (entriesKey eopts) now).bind Payload.asEntries = none)
    (hsN5 : (storeGetStale stN "entries" (entriesKey eopts)).bind Payload.asEntries
      = none) :
    (getProjects st now opts (.error e) = ⟨.ok ps, st, true⟩ ∧
      getProject st now pid (.error e) = ⟨.ok p, st, true⟩ ∧
      getTasks st now topts (.error e) = ⟨.ok ts, st, true⟩ ∧
      getTask st now tid (.error e) = ⟨.ok tk, st, true⟩ ∧
      getEntries st now eopts (.error e) = ⟨.ok es, st, true⟩) ∧
    (∀ sc m,
      getProjects st now opts (.error (.apiError sc m))
          = ⟨.error (.apiError sc m), st, true⟩ ∧
      getProject st now pid (.error (.apiError sc m))
          = ⟨.error (.apiError sc m), st, true⟩ ∧
      getTasks st now topts (.error (.apiError sc m))
          = ⟨.error (.apiError sc m), st, true⟩ ∧
      getTask st now tid (.error (.apiError sc m))
          = ⟨.error (.apiError sc m), st, true⟩ ∧
      getEntries st now eopts (.error (.apiError sc m))
          = ⟨.error (.apiError sc m), st, true⟩) ∧
    (getProjects stN now opts (.error e) = ⟨.error e, stN, true⟩ ∧
      getProject stN now pid (.error e) = ⟨.error e, stN, true⟩ ∧
      getTasks stN now topts (.error e) = ⟨.error e, stN, true⟩ ∧
      getTask stN now tid (.error e) = ⟨.error e, stN, true⟩ ∧
      getEntries stN now eopts (.error e) = ⟨.error e, stN, true⟩) ∧
    (getEntry st now eid (.error e) = ⟨.error e, st, true⟩ ∧
      getTaskLists st now tlid (.error e) = ⟨.error e, st, true⟩ ∧
      getMe st now (.error e) = ⟨.error e, st, true⟩) := by
  refine ⟨⟨?_, ?_, ?_, ?_, ?_⟩, ?_, ⟨?_, ?_, ?_, ?_, ?_⟩, ⟨?_, ?_, ?_⟩⟩
  · unfold getProjects; simp only [hm1, hnet, hs1, if_true]
  · unfold getProject; simp only [hm2, hnet, hs2, if_true]
  · unfold getTasks; simp only [hm3, hnet, hs3, if_true]
  · unfold getTask; simp only [hm4, hnet, hs4, if_true]
  · unfold getEntries; simp only [hm5, hnet, hs5, if_true]
  · intro sc m
    refine ⟨?_, ?_, ?_, ?_, ?_⟩
    · unfold getProjects; simp only [hm1]; rfl
    · unfold getProject; simp only [hm2]; rfl
    · unfold getTasks; simp only [hm3]; rfl
    · unfold getTask; simp only [hm4]; rfl
    · unfold getEntries; simp only [hm5]; rfl
  · unfold getProjects; simp only [hmN1, hnet, hsN1, if_true]
  · unfold getProject; simp only [hmN2, hnet, hsN2, if_true]
  · unfold getTasks; simp only [hmN3, hnet, hsN3, if_true]
  · unfold getTask; simp only [hmN4, hnet, hsN4, if_true]
  · unfold getEntries; simp only [hmN5, hnet, hsN5, if_true]
  · unfold getEntry; simp only [hm6]
  · unfold getTaskLists; simp only [hm7]
  · unfold getMe; simp only [hm8]


/-- A concrete user used in witness scenarios. -/
def uX : User := ⟨1, "Test User", "t@example.com", "", true, "", 0, 0⟩

/-- A store whose buckets all hold expired (stale) entries, for witnesses. -/
def stWit : StoreData :=
  [("projects", [("all", ⟨.projectsP [pX], 0, 3600⟩)]),
   ("project", [("1", ⟨.projectP pX, 0, 3600⟩)]),
   ("tasks", [("all", ⟨.tasksP [tkX], 0, 1800⟩)]),
   ("task", [("1", ⟨.taskP tkX, 0, 1800⟩)]),
   ("entries", [("all", ⟨.entriesP [teX], 0, 300⟩)]),
   ("entry", [("1", ⟨.entryP teX, 0, 300⟩)]),
   ("tasklists", [("project=1", ⟨.tasklistsP [], 0, 3600⟩)]),
   ("me", [("me", ⟨.userP uX, 0, 86400⟩)])]

theorem claim4_witness :
    getProjects stWit 1000000 none (.error netErrX) = ⟨.ok [pX], stWit, true⟩ ∧
    getProjects [] 1000000 none (.error netErrX) = ⟨.error netErrX, [], true⟩ ∧
    getEntry stWit 1000000 1 (.error netErrX) = ⟨.error netErrX, stWit, true⟩ := by
  have h := claim4_read_error_paths stWit [] 1000000 netErrX none none none 1 1 1 1
    [pX] pX [tkX] tkX [teX] (by decide) (by decide) (by decide) (by decide) (by decide)
    (by decide) (by decide) (by decide) (by decide) (by decide) (by decide) (by decide)
    (by decide) (by decide) (by decide) (by decide) (by decide) (by decide) (by decide)
    (by decide) (by decide) (by decide) (by decide) (by decide)
  exact ⟨h.1.1, h.2.2.1.1, h.2.2.2.1⟩


/-- Soundness of the `task`-bucket scan: a hit comes from a cached entry whose
decoded parent-project-id equals the query's and whose lowercased name
contains the query substring. -/
theorem scanTask_sound : ∀ (b : Bucket) (sub : String) (pid i : Int),
    scanTask b sub pid = some i →
    ∃ k e, (k, e) ∈ b ∧ ∃ nm ppid, e.data.idNameProject = some (i, nm, ppid) ∧
      ppid = pid ∧ strContains (strToLower nm) sub = true := by
  intro b
  induction b with
  | nil => intro sub pid i h; cases h
  | cons hd rest ih =>
    intro sub pid i h
    obtain ⟨k, e⟩ := hd
    cases hf : e.data.idNameProject with
    | none =>
      simp only [scanTask, hf] at h
      obtain ⟨k', e', hmem, rest'⟩ := ih sub pid i h
      exact ⟨k', e', List.mem_cons_of_mem _ hmem, rest'⟩
    | some trip =>
      obtain ⟨tid, nm, tpid⟩ := trip
      simp only [scanTask, hf] at h
      by_cases hc : (decide (tpid = pid) && strContains (strToLower nm) sub) = true
      · rw [if_pos hc] at h
        have hi : tid = i := Option.some.inj h
        simp only [Bool.and_eq_true, decide_eq_true_eq] at hc
        exact ⟨k, e, List.mem_cons_self _ _, nm, tpid, hi ▸ hf, hc.1, hc.2⟩
      · rw [if_neg hc] at h
        obtain ⟨k', e', hmem, rest'⟩ := ih sub pid i h
        exact ⟨k', e', List.mem_cons_of_mem _ hmem, rest'⟩

/-- C9: `LookupName` on type `task` matches only cached entries whose
parent-project-id equals the given project id, by case-insensitive substring
on the cached name; with the task "Design Homepage" cached under project 5,
`LookupName("task", "design", 5)` yields its ID and any other parent project
id misses. -/
theorem claim9_lookupName_task (q : Int) (hq : q ≠ 5) :
    (∀ (st : StoreData) (sub : String) (pid i : Int),
      lookupName st "task" sub pid = some i →
      ∃ k e, (k, e) ∈ bucketOf st "task" ∧ ∃ nm ppid,
        e.data.idNameProject = some (i, nm, ppid) ∧ ppid = pid ∧
        strContains (strToLower nm) sub = true) ∧
    lookupName [("task", [("7", (⟨.taskP tkX, 0, 1800⟩ : CacheEntry))])] "task" "design" 5
      = some 7 ∧
    lookupName [("task", [("7", (⟨.taskP tkX, 0, 1800⟩ : CacheEntry))])] "task" "design" q
      = none := by
  refine ⟨?_, by decide, ?_⟩
  · intro st sub pid i h
    unfold lookupName at h
    rw [if_neg (by decide), if_pos rfl] at h
    exact scanTask_sound _ _ _ _ h
  · have h5 : ¬ ((5 : Int) = q) := fun he => hq he.symm
    unfold lookupName
    rw [if_neg (by decide), if_pos rfl]
    simp [bucketOf, mfind, scanTask, tkX, Payload.idNameProject, h5]

theorem claim9_witness :
    lookupName [("task", [("7", (⟨.taskP tkX, 0, 1800⟩ : CacheEntry))])] "task" "design" 5
      = some 7 ∧
    lookupName [("task", [("7", (⟨.taskP tkX, 0, 1800⟩ : CacheEntry))])] "task" "design" 9
      = none := by
  have h := claim9_lookupName_task 9 (by decide)
  exact ⟨h.2.1, h.2.2⟩


/-! ### Key-derivation decoding apparatus (proof-only, used for C8)

The decoders below re-read a `parts` list back into the options fields; they
are verification apparatus, not part of the source model. -/

/-- Numeric field value decoded from an optional fragment (`0` when absent,
matching the `> 0` emission guard). -/
def numVal : Option Nat → Int
  | none => 0
  | some n => Int.ofNat n

/-- Date field value decoded from an optional fragment (`time.Time`'s zero
value when absent, matching the `IsZero` emission guard). -/
def dateVal : Option (Nat × Nat × Nat) → GoTime
  | none => GoTime.zero
  | some (y, m, d) => ⟨y, m, d, 0⟩

/-- Decode the `yyyy-mm-dd` rendering back into (year, month, day). -/
def dateDecode (cs : List Char) : Nat × Nat × Nat :=
  (charsToNat (cs.take 4), charsToNat ((cs.drop 5).take 2), charsToNat (cs.drop 8))

/-- Peel a constant fragment off the head of a parts list. -/
def peelFlag (tag : String) : List String → Bool × List String
  | [] => (false, [])
  | x :: rest => if x = tag then (true, rest) else (false, x :: rest)

/-- Peel a `tag=<number>` fragment off the head of a parts list. -/
def peelNum (tag : String) : List String → Option Nat × List String
  | [] => (none, [])
  | x :: rest =>
    if listHasPre tag.data x.data then
      (some (charsToNat (x.data.drop tag.data.length)), rest)
    else (none, x :: rest)

/-- Peel a `tag=<yyyy-mm-dd>` fragment off the head of a parts list. -/
def peelDate (tag : String) : List String → Option (Nat × Nat × Nat) × List String
  | [] => (none, [])
  | x :: rest =>
    if listHasPre tag.data x.data then
      (some (dateDecode (x.data.drop tag.data.length)), rest)
    else (none, x :: rest)

theorem hasPre_append_self : ∀ (p r : List Char), listHasPre p (p ++ r) = true := by
  intro p
  induction p with
  | nil => intro r; rfl
  | cons c t ih => intro r; simp [listHasPre, ih]

theorem hasPre_false_of_head_ne {a b : Char} (ta tb : List Char) (h : a ≠ b) :
    listHasPre (a :: ta) (b :: tb) = false := by
  simp [listHasPre, h]

theorem data_append_cons {s : String} {c : Char} {l : List Char} (hs : s.data = c :: l)
    (t : String) : (s ++ t).data = c :: (l ++ t.data) := by
  rw [String.data_append, hs, List.cons_append]

theorem data_numFrag (tag : String) (n : Nat) :
    (tag ++ natRepr n).data = tag.data ++ decChars n := by
  rw [String.data_append]; rfl

theorem data_dateFrag (tag : String) (t : GoTime) :
    (tag ++ formatDay t).data = tag.data ++ dateChars t := by
  rw [String.data_append]; rfl

theorem ne_of_heads {s t : String} {c d : Char} {ls lt : List Char}
    (hs : s.data = c :: ls) (ht : t.data = d :: lt) (h : c ≠ d) : s ≠ t := by
  intro he
  rw [he, ht] at hs
  exact h (List.cons.inj hs.symm).1

theorem peelFlag_hit (tag : String) (l : List String) :
    peelFlag tag (tag :: l) = (true, l) := by
  simp [peelFlag]

theorem peelFlag_miss {x tag : String} (h : x ≠ tag) (l : List String) :
    peelFlag tag (x :: l) = (false, x :: l) := by
  simp [peelFlag, h]

theorem peelNum_hit (tag : String) (n : Nat) (l : List String) :
    peelNum tag ((tag ++ natRepr n) :: l) = (some n, l) := by
  rw [peelNum, data_numFrag, hasPre_append_self, List.drop_left, charsToNat_decChars]
  rfl

theorem peelNum_miss {tag x : String} (h : listHasPre tag.data x.data = false)
    (l : List String) : peelNum tag (x :: l) = (none, x :: l) := by
  simp [peelNum, h]

theorem peelDate_miss {tag x : String} (h : listHasPre tag.data x.data = false)
    (l : List String) : peelDate tag (x :: l) = (none, x :: l) := by
  simp [peelDate, h]

theorem padZero_decChars_length {n w : Nat} (hn : n < 10 ^ w) (hw : 1 ≤ w) :
    (padZero w (decChars n)).length = w :=
  padZero_length (decChars_length_le hn hw)

theorem charsToNat_padZero_decChars (w n : Nat) :
    charsToNat (padZero w (decChars n)) = n := by
  rw [charsToNat_padZero, charsToNat_decChars]

theorem dateDecode_dateChars (t : GoTime) (hy : t.year ≤ 9999) (hm : t.month ≤ 99)
    (hd : t.day ≤ 99) : dateDecode (dateChars t) = (t.year, t.month, t.day) := by
  have hly : (padZero 4 (decChars t.year)).length = 4 :=
    padZero_decChars_length (by omega) (by omega)
  have hlm : (padZero 2 (decChars t.month)).length = 2 :=
    padZero_decChars_length (by omega) (by omega)
  have hsplit2 : dateChars t =
      (padZero 4 (decChars t.year) ++ ['-']) ++
        (padZero 2 (decChars t.month) ++ '-' :: padZero 2 (decChars t.day)) := by
    unfold dateChars
    rw [List.append_cons (padZero 4 (decChars t.year)) '-'
      (padZero 2 (decChars t.month) ++ '-' :: padZero 2 (decChars t.day))]
  have hsplit3 : dateChars t =
      ((padZero 4 (decChars t.year) ++ ['-']) ++ (padZero 2 (decChars t.month) ++ ['-']))
        ++ padZero 2 (decChars t.day) := by
    rw [hsplit2, List.append_cons (padZero 2 (decChars t.month)) '-'
      (padZero 2 (decChars t.day)), ← List.append_assoc]
  unfold dateDecode
  refine congrArg₂ Prod.mk ?_ (congrArg₂ Prod.mk ?_ ?_)
  · show charsToNat ((dateChars t).take 4) = t.year
    unfold dateChars
    rw [List.take_left' hly, charsToNat_padZero_decChars]
  · show charsToNat (((dateChars t).drop 5).take 2) = t.month
    rw [hsplit2, List.drop_left' (by rw [List.length_append, hly]; rfl),
      List.take_left' hlm, charsToNat_padZero_decChars]
  · show charsToNat ((dateChars t).drop 8) = t.day
    rw [hsplit3, List.drop_left' (by
        rw [List.length_append, List.length_append, List.length_append, hly, hlm]; rfl),
      charsToNat_padZero_decChars]

theorem peelDate_hit (tag : String) (t : GoTime) (l : List String) (hy : t.year ≤ 9999)
    (hm : t.month ≤ 99) (hd : t.day ≤ 99) :
    peelDate tag ((tag ++ formatDay t) :: l) = (some (t.year, t.month, t.day), l) := by
  rw [peelDate, data_dateFrag, hasPre_append_self, List.drop_left,
    dateDecode_dateChars t hy hm hd]
  rfl


theorem mem_opt {c : Prop} [Decidable c] {x s : String}
    (h : s ∈ (if c then [x] else [])) : s = x := by
  by_cases hc : c
  · rw [if_pos hc] at h; exact List.mem_singleton.mp h
  · rw [if_neg hc] at h; cases h

theorem mem_opt_frag {c : Prop} [Decidable c] {x s : String} {rest : List String}
    (h : s ∈ (if c then [x] else []) ++ rest) : s = x ∨ s ∈ rest := by
  rcases List.mem_append.mp h with h1 | h2
  · exact Or.inl (mem_opt h1)
  · exact Or.inr h2

theorem mem_ite_pair {c : Prop} [Decidable c] {x y s : String}
    (h : s ∈ (if c then [x] else [y])) : s = x ∨ s = y := by
  by_cases hc : c
  · rw [if_pos hc] at h; exact Or.inl (List.mem_singleton.mp h)
  · rw [if_neg hc] at h; exact Or.inr (List.mem_singleton.mp h)

theorem hasPre_numFrag_false (tagA tagB : String) {a b : Char} {la lb : List Char}
    (hA : tagA.data = a :: la) (hB : tagB.data = b :: lb) (h : a ≠ b) (n : Nat) :
    listHasPre tagA.data (tagB ++ natRepr n).data = false := by
  rw [data_append_cons hB (natRepr n), hA]
  exact hasPre_false_of_head_ne _ _ h

theorem hasPre_dateFrag_false (tagA tagB : String) {a b : Char} {la lb : List Char}
    (hA : tagA.data = a :: la) (hB : tagB.data = b :: lb) (h : a ≠ b) (t : GoTime) :
    listHasPre tagA.data (tagB ++ formatDay t).data = false := by
  rw [data_append_cons hB (formatDay t), hA]
  exact hasPre_false_of_head_ne _ _ h

theorem numFrag_ne_const (tagB c : String) {b d : Char} {lb ld : List Char}
    (hB : tagB.data = b :: lb) (hc : c.data = d :: ld) (h : b ≠ d) (n : Nat) :
    (tagB ++ natRepr n) ≠ c :=
  ne_of_heads (data_append_cons hB (natRepr n)) hc h

theorem peelFlag_optB (tag : String) (b : Bool) (rest : List String)
    (h : ∀ s ∈ rest, s ≠ tag) :
    peelFlag tag ((if b then [tag] else []) ++ rest) = (b, rest) := by
  cases b
  · simp only [Bool.false_eq_true, if_false, List.nil_append]
    cases rest with
    | nil => rfl
    | cons x xs => exact peelFlag_miss (h x (List.mem_cons_self x xs)) xs
  · simp only [if_true, List.singleton_append]
    exact peelFlag_hit tag rest

theorem peelFlag_opt_last (tag : String) (b : Bool) :
    peelFlag tag (if b then [tag] else []) = (b, []) := by
  cases b <;> simp [peelFlag]

theorem peelNum_opt (tag : String) (c : Prop) [Decidable c] (k : Nat) (rest : List String)
    (h : ∀ s ∈ rest, listHasPre tag.data s.data = false) :
    peelNum tag ((if c then [tag ++ natRepr k] else []) ++ rest)
      = ((if c then some k else none), rest) := by
  by_cases hc : c
  · rw [if_pos hc, if_pos hc, List.singleton_append, peelNum_hit]
  · rw [if_neg hc, if_neg hc, List.nil_append]
    cases rest with
    | nil => rfl
    | cons x xs => exact peelNum_miss (h x (List.mem_cons_self x xs)) xs

theorem peelDate_opt (tag : String) (c : Prop) [Decidable c] (t : GoTime)
    (rest : List String) (hy : t.year ≤ 9999) (hm : t.month ≤ 99) (hd : t.day ≤ 99)
    (h : ∀ s ∈ rest, listHasPre tag.data s.data = false) :
    peelDate tag ((if c then [tag ++ formatDay t] else []) ++ rest)
      = ((if c then some (t.year, t.month, t.day) else none), rest) := by
  by_cases hc : c
  · rw [if_pos hc, if_pos hc, List.singleton_append, peelDate_hit tag t rest hy hm hd]
  · rw [if_neg hc, if_neg hc, List.nil_append]
    cases rest with
    | nil => rfl
    | cons x xs => exact peelDate_miss (h x (List.mem_cons_self x xs)) xs

theorem peelDate_opt_last (tag : String) (c : Prop) [Decidable c] (t : GoTime)
    (hy : t.year ≤ 9999) (hm : t.month ≤ 99) (hd : t.day ≤ 99) :
    peelDate tag (if c then [tag ++ formatDay t] else [])
      = ((if c then some (t.year, t.month, t.day) else none), []) := by
  by_cases hc : c
  · rw [if_pos hc, if_pos hc]
    exact peelDate_hit tag t [] hy hm hd
  · rw [if_neg hc, if_neg hc]
    rfl

theorem intRepr_nonneg {n : Int} (h : 0 ≤ n) : intRepr n = natRepr n.toNat := by
  unfold intRepr
  rw [if_neg (by omega)]

theorem numVal_guard {n : Int} (h : 0 ≤ n) :
    numVal (if n > 0 then some n.toNat else none) = n := by
  by_cases h0 : n > 0
  · rw [if_pos h0]
    exact Int.toNat_of_nonneg h
  · rw [if_neg h0]
    show (0 : Int) = n
    omega

/-- Canonical dates for the day-granularity key rendering: the zero time, or a
calendar day in the representable range with no sub-day remainder. -/
def canonDate (t : GoTime) : Prop :=
  t = GoTime.zero ∨ (1 ≤ t.year ∧ t.year ≤ 9999 ∧ 1 ≤ t.month ∧ t.month ≤ 12 ∧
    1 ≤ t.day ∧ t.day ≤ 31 ∧ t.clock = 0)

theorem canonDate_bounds {t : GoTime} (h : canonDate t) :
    t.year ≤ 9999 ∧ t.month ≤ 99 ∧ t.day ≤ 99 := by
  rcases h with rfl | ⟨_, h1, _, h2, _, h3, _⟩
  · exact ⟨by decide, by decide, by decide⟩
  · exact ⟨h1, by omega, by omega⟩

theorem dateVal_guard {t : GoTime} (h : canonDate t) :
    dateVal (if (!t.isZero) = true then some (t.year, t.month, t.day) else none) = t := by
  by_cases hz : t = GoTime.zero
  · subst hz
    rw [if_neg (by decide)]
    rfl
  · have hnz : t.isZero = false := by
      unfold GoTime.isZero
      exact decide_eq_false hz
    rw [if_pos (by rw [hnz]; rfl)]
    rcases h with hz' | ⟨_, _, _, _, _, _, hclock⟩
    · exact absurd hz' hz
    · obtain ⟨y, m, d, ck⟩ := t
      simp only at hclock
      subst hclock
      rfl


theorem peelFlag_last_miss (tag x : String) (hx : x ≠ tag) (b : Bool) :
    peelFlag tag (if b then [x] else []) = (false, if b then [x] else []) := by
  cases b <;> simp [peelFlag, hx]

/-- Decoder for `projectsParts` (proof apparatus). -/
def decodeProjects (l : List String) : ProjectListOptions :=
  ⟨(peelFlag "active=true" l).1,
   numVal (peelNum "client=" (peelFlag "active=true" l).2).1,
   numVal (peelNum "user=" (peelNum "client=" (peelFlag "active=true" l).2).2).1,
   (peelFlag "inc_tasks"
     (peelNum "user=" (peelNum "client=" (peelFlag "active=true" l).2).2).2).1,
   (peelFlag "inc_client" (peelFlag "inc_tasks"
     (peelNum "user=" (peelNum "client=" (peelFlag "active=true" l).2).2).2).2).1⟩

/-- Decoder for `tasksParts` (proof apparatus). -/
def decodeTasks (l : List String) : TaskListOptions :=
  ⟨numVal (peelNum "project=" l).1,
   numVal (peelNum "tasklist=" (peelNum "project=" l).2).1,
   numVal (peelNum "user=" (peelNum "tasklist=" (peelNum "project=" l).2).2).1,
   (peelFlag "completed=true"
     (peelNum "user=" (peelNum "tasklist=" (peelNum "project=" l).2).2).2).1,
   (peelFlag "inc_project" (peelFlag "completed=false" (peelFlag "completed=true"
     (peelNum "user=" (peelNum "tasklist=" (peelNum "project=" l).2).2).2).2).2).1⟩

/-- Decoder for `entriesParts` (proof apparatus); the include flags are not
rendered into the key, so they decode as `false`. -/
def decodeEntries (l : List String) : EntryListOptions :=
  ⟨numVal (peelNum "user=" l).1,
   numVal (peelNum "project=" (peelNum "user=" l).2).1,
   numVal (peelNum "task=" (peelNum "project=" (peelNum "user=" l).2).2).1,
   dateVal (peelDate "start="
     (peelNum "task=" (peelNum "project=" (peelNum "user=" l).2).2).2).1,
   dateVal (peelDate "end=" (peelDate "start="
     (peelNum "task=" (peelNum "project=" (peelNum "user=" l).2).2).2).2).1,
   false, false⟩

theorem decodeProjects_parts (o : ProjectListOptions) (hc : 0 ≤ o.clientID)
    (hu : 0 ≤ o.userID) : decodeProjects (projectsParts o) = o := by
  obtain ⟨a, cid, uid, it, ic⟩ := o
  replace hc : 0 ≤ cid := hc
  replace hu : 0 ≤ uid := hu
  have hA : ∀ s ∈ ((if cid > 0 then ["client=" ++ natRepr cid.toNat] else []) ++
      ((if uid > 0 then ["user=" ++ natRepr uid.toNat] else []) ++
        ((if it then ["inc_tasks"] else []) ++ (if ic then ["inc_client"] else [])))),
      s ≠ "active=true" := by
    intro s hs
    rcases mem_opt_frag hs with rfl | hs
    · exact numFrag_ne_const "client=" "active=true" rfl rfl (by decide) _
    rcases mem_opt_frag hs with rfl | hs
    · exact numFrag_ne_const "user=" "active=true" rfl rfl (by decide) _
    rcases mem_opt_frag hs with rfl | hs
    · decide
    · have h := mem_opt hs
      subst h
      decide
  have hB : ∀ s ∈ ((if uid > 0 then ["user=" ++ natRepr uid.toNat] else []) ++
      ((if it then ["inc_tasks"] else []) ++ (if ic then ["inc_client"] else []))),
      listHasPre "client=".data s.data = false := by
    intro s hs
    rcases mem_opt_frag hs with rfl | hs
    · exact hasPre_numFrag_false "client=" "user=" rfl rfl (by decide) _
    rcases mem_opt_frag hs with rfl | hs
    · decide
    · have h := mem_opt hs
      subst h
      decide
  have hC : ∀ s ∈ ((if it then ["inc_tasks"] else []) ++
      (if ic then ["inc_client"] else [])),
      listHasPre "user=".data s.data = false := by
    intro s hs
    rcases mem_opt_frag hs with rfl | hs
    · decide
    · have h := mem_opt hs
      subst h
      decide
  have hD : ∀ s ∈ (if ic then ["inc_client"] else []), s ≠ "inc_tasks" := by
    intro s hs
    have h := mem_opt hs
    subst h
    decide
  simp only [projectsParts, decodeProjects, List.append_assoc, intRepr_nonneg hc,
    intRepr_nonneg hu, peelFlag_optB "active=true" a _ hA,
    peelNum_opt "client=" (cid > 0) cid.toNat _ hB,
    peelNum_opt "user=" (uid > 0) uid.toNat _ hC,
    peelFlag_optB "inc_tasks" it _ hD, peelFlag_opt_last "inc_client" ic,
    numVal_guard hc, numVal_guard hu]

theorem decodeTasks_parts (o : TaskListOptions) (hp : 0 ≤ o.projectID)
    (ht : 0 ≤ o.taskListID) (hu : 0 ≤ o.userID) : decodeTasks (tasksParts o) = o := by
  obtain ⟨pid, tlid, uid, ct, ip⟩ := o
  replace hp : 0 ≤ pid := hp
  replace ht : 0 ≤ tlid := ht
  replace hu : 0 ≤ uid := hu
  have hA : ∀ s ∈ ((if tlid > 0 then ["tasklist=" ++ natRepr tlid.toNat] else []) ++
      ((if uid > 0 then ["user=" ++ natRepr uid.toNat] else []) ++
        ((if ct then ["completed=true"] else ["completed=false"]) ++
          (if ip then ["inc_project"] else [])))),
      listHasPre "project=".data s.data = false := by
    intro s hs
    rcases mem_opt_frag hs with rfl | hs
    · exact hasPre_numFrag_false "project=" "tasklist=" rfl rfl (by decide) _
    rcases mem_opt_frag hs with rfl | hs
    · exact hasPre_numFrag_false "project=" "user=" rfl rfl (by decide) _
    rcases List.mem_append.mp hs with hs1 | hs2
    · rcases mem_ite_pair hs1 with h | h <;> (subst h; decide)
    · have h := mem_opt hs2
      subst h
      decide
  have hB : ∀ s ∈ ((if uid > 0 then ["user=" ++ natRepr uid.toNat] else []) ++
      ((if ct then ["completed=true"] else ["completed=false"]) ++
        (if ip then ["inc_project"] else []))),
      listHasPre "tasklist=".data s.data = false := by
    intro s hs
    rcases mem_opt_frag hs with rfl | hs
    · exact hasPre_numFrag_false "tasklist=" "user=" rfl rfl (by decide) _
    rcases List.mem_append.mp hs with hs1 | hs2
    · rcases mem_ite_pair hs1 with h | h <;> (subst h; decide)
    · have h := mem_opt hs2
      subst h
      decide
  have hC : ∀ s ∈ ((if ct then ["completed=true"] else ["completed=false"]) ++
      (if ip then ["inc_project"] else [])),
      listHasPre "user=".data s.data = false := by
    intro s hs
    rcases List.mem_append.mp hs with hs1 | hs2
    · rcases mem_ite_pair hs1 with h | h <;> (subst h; decide)
    · have h := mem_opt hs2
      subst h
      decide
  simp only [tasksParts, decodeTasks, List.append_assoc, intRepr_nonneg hp,
    intRepr_nonneg ht, intRepr_nonneg hu,
    peelNum_opt "project=" (pid > 0) pid.toNat _ hA,
    peelNum_opt "tasklist=" (tlid > 0) tlid.toNat _ hB,
    peelNum_opt "user=" (uid > 0) uid.toNat _ hC,
    numVal_guard hp, numVal_guard ht, numVal_guard hu]
  cases ct
  · simp only [Bool.false_eq_true, if_false, List.singleton_append,
      peelFlag_miss (show ("completed=false" : String) ≠ "completed=true" by decide),
      peelFlag_hit, peelFlag_opt_last "inc_project" ip]
  · simp only [if_true, List.singleton_append, peelFlag_hit,
      peelFlag_last_miss "completed=false" "inc_project" (by decide) ip,
      peelFlag_opt_last "inc_project" ip]

theorem decodeEntries_parts (o : EntryListOptions) (hu : 0 ≤ o.userID)
    (hp : 0 ≤ o.projectID) (ht : 0 ≤ o.taskID) (hsd : canonDate o.startDate)
    (hed : canonDate o.endDate) :
    decodeEntries (entriesParts o) =
      ⟨o.userID, o.projectID, o.taskID, o.startDate, o.endDate, false, false⟩ := by
  obtain ⟨uid, pid, tid, sd, ed, itk, ipr⟩ := o
  replace hu : 0 ≤ uid := hu
  replace hp : 0 ≤ pid := hp
  replace ht : 0 ≤ tid := ht
  replace hsd : canonDate sd := hsd
  replace hed : canonDate ed := hed
  obtain ⟨hy1, hm1, hd1⟩ := canonDate_bounds hsd
  obtain ⟨hy2, hm2, hd2⟩ := canonDate_bounds hed
  have hA : ∀ s ∈ ((if pid > 0 then ["project=" ++ natRepr pid.toNat] else []) ++
      ((if tid > 0 then ["task=" ++ natRepr tid.toNat] else []) ++
        ((if (!sd.isZero) = true then ["start=" ++ formatDay sd] else []) ++
          (if (!ed.isZero) = true then ["end=" ++ formatDay ed] else [])))),
      listHasPre "user=".data s.data = false := by
    intro s hs
    rcases mem_opt_frag hs with rfl | hs
    · exact hasPre_numFrag_false "user=" "project=" rfl rfl (by decide) _
    rcases mem_opt_frag hs with rfl | hs
    · exact hasPre_numFrag_false "user=" "task=" rfl rfl (by decide) _
    rcases mem_opt_frag hs with rfl | hs
    · exact hasPre_dateFrag_false "user=" "start=" rfl rfl (by decide) _
    · have h := mem_opt hs
      subst h
      exact hasPre_dateFrag_false "user=" "end=" rfl rfl (by decide) _
  have hB : ∀ s ∈ ((if tid > 0 then ["task=" ++ natRepr tid.toNat] else []) ++
      ((if (!sd.isZero) = true then ["start=" ++ formatDay sd] else []) ++
        (if (!ed.isZero) = true then ["end=" ++ formatDay ed] else []))),
      listHasPre "project=".data s.data = false := by
    intro s hs
    rcases mem_opt_frag hs with rfl | hs
    · exact hasPre_numFrag_false "project=" "task=" rfl rfl (by decide) _
    rcases mem_opt_frag hs with rfl | hs
    · exact hasPre_dateFrag_false "project=" "start=" rfl rfl (by decide) _
    · have h := mem_opt hs
      subst h
      exact hasPre_dateFrag_false "project=" "end=" rfl rfl (by decide) _
  have hC : ∀ s ∈ ((if (!sd.isZero) = true then ["start=" ++ formatDay sd] else []) ++
      (if (!ed.isZero) = true then ["end=" ++ formatDay ed] else [])),
      listHasPre "task=".data s.data = false := by
    intro s hs
    rcases mem_opt_frag hs with rfl | hs
    · exact hasPre_dateFrag_false "task=" "start=" rfl rfl (by decide) _
    · have h := mem_opt hs
      subst h
      exact hasPre_dateFrag_false "task=" "end=" rfl rfl (by decide) _
  have hD : ∀ s ∈ (if (!ed.isZero) = true then ["end=" ++ formatDay ed] else []),
      listHasPre "start=".data s.data = false := by
    intro s hs
    have h := mem_opt hs
    subst h
    exact hasPre_dateFrag_false "start=" "end=" rfl rfl (by decide) _
  simp only [entriesParts, decodeEntries, List.append_assoc, intRepr_nonneg hu,
    intRepr_nonneg hp, intRepr_nonneg ht,
    peelNum_opt "user=" (uid > 0) uid.toNat _ hA,
    peelNum_opt "project=" (pid > 0) pid.toNat _ hB,
    peelNum_opt "task=" (tid > 0) tid.toNat _ hC,
    peelDate_opt "start=" ((!sd.isZero) = true) sd _ hy1 hm1 hd1 hD,
    peelDate_opt_last "end=" ((!ed.isZero) = true) ed hy2 hm2 hd2,
    numVal_guard hu, numVal_guard hp, numVal_guard ht,
    dateVal_guard hsd, dateVal_guard hed]


/-! ### Fragment goodness and key-level facts (C8) -/

theorem intRepr_good (n : Int) : (intRepr n).data ≠ [] ∧ '|' ∉ (intRepr n).data := by
  unfold intRepr
  by_cases h : n < 0
  · rw [if_pos h, String.data_append]
    constructor
    · intro hh
      exact absurd (List.append_eq_nil.mp hh).1 (by decide)
    · intro hmem
      rcases List.mem_append.mp hmem with h1 | h2
      · exact absurd h1 (by decide)
      · exact absurd (decChars_isDigit h2) (by decide)
  · rw [if_neg h]
    exact ⟨decChars_ne_nil _, fun hm => absurd (decChars_isDigit hm) (by decide)⟩

theorem intRepr_len1 (n : Int) : 1 ≤ (intRepr n).data.length := by
  cases hl : (intRepr n).data with
  | nil => exact absurd hl (intRepr_good n).1
  | cons c cs => simp

theorem numFragI_good (tag : String) (htag : '|' ∉ tag.data) (n : Int) :
    (tag ++ intRepr n).data ≠ [] ∧ '|' ∉ (tag ++ intRepr n).data ∧
      tag.data.length + 1 ≤ (tag ++ intRepr n).data.length := by
  rw [String.data_append]
  refine ⟨?_, ?_, ?_⟩
  · intro hh
    exact absurd (List.append_eq_nil.mp hh).2 (intRepr_good n).1
  · intro hm
    rcases List.mem_append.mp hm with h1 | h2
    · exact htag h1
    · exact (intRepr_good n).2 h2
  · rw [List.length_append]
    have := intRepr_len1 n
    omega

theorem dateChars_no_bar (t : GoTime) : '|' ∉ dateChars t := by
  intro h
  unfold dateChars at h
  rcases List.mem_append.mp h with h1 | h2
  · exact absurd (padZero_isDigit (fun c hc => decChars_isDigit hc) h1) (by decide)
  · rcases List.mem_cons.mp h2 with h3 | h4
    · exact absurd h3 (by decide)
    · rcases List.mem_append.mp h4 with h5 | h6
      · exact absurd (padZero_isDigit (fun c hc => decChars_isDigit hc) h5) (by decide)
      · rcases List.mem_cons.mp h6 with h7 | h8
        · exact absurd h7 (by decide)
        · exact absurd (padZero_isDigit (fun c hc => decChars_isDigit hc) h8) (by decide)

theorem dateChars_ne_nil (t : GoTime) : dateChars t ≠ [] := by
  unfold dateChars
  intro h
  cases (List.append_eq_nil.mp h).2

theorem dateFragF_good (tag : String) (htag : '|' ∉ tag.data) (t : GoTime) :
    (tag ++ formatDay t).data ≠ [] ∧ '|' ∉ (tag ++ formatDay t).data ∧
      tag.data.length + 1 ≤ (tag ++ formatDay t).data.length := by
  rw [data_dateFrag]
  refine ⟨?_, ?_, ?_⟩
  · intro hh
    exact absurd (List.append_eq_nil.mp hh).2 (dateChars_ne_nil t)
  · intro hm
    rcases List.mem_append.mp hm with h1 | h2
    · exact htag h1
    · exact dateChars_no_bar t h2
  · rw [List.length_append]
    have h1 : 1 ≤ (dateChars t).length := by
      cases hl : dateChars t with
      | nil => exact absurd hl (dateChars_ne_nil t)
      | cons c cs => simp
    omega

/-- Every fragment of `projectsParts` is nonempty, bar-free and ≥ 4 chars. -/
theorem projectsParts_good (o : ProjectListOptions) :
    ∀ s ∈ projectsParts o, s.data ≠ [] ∧ '|' ∉ s.data ∧ 4 ≤ s.data.length := by
  intro s hs
  unfold projectsParts at hs
  rcases List.mem_append.mp hs with hs | hs
  · rcases List.mem_append.mp hs with hs | hs
    · rcases List.mem_append.mp hs with hs | hs
      · rcases List.mem_append.mp hs with hs | hs
        · have h := mem_opt hs
          subst h
          exact ⟨by decide, by decide, by decide⟩
        · have h := mem_opt hs
          subst h
          obtain ⟨g1, g2, g3⟩ := numFragI_good "client=" (by decide) o.clientID
          have hlt : "client=".data.length = 7 := by decide
          exact ⟨g1, g2, by omega⟩
      · have h := mem_opt hs
        subst h
        obtain ⟨g1, g2, g3⟩ := numFragI_good "user=" (by decide) o.userID
        have hlt : "user=".data.length = 5 := by decide
        exact ⟨g1, g2, by omega⟩
    · have h := mem_opt hs
      subst h
      exact ⟨by decide, by decide, by decide⟩
  · have h := mem_opt hs
    subst h
    exact ⟨by decide, by decide, by decide⟩

/-- Every fragment of `tasksParts` is nonempty, bar-free and ≥ 4 chars. -/
theorem tasksParts_good (o : TaskListOptions) :
    ∀ s ∈ tasksParts o, s.data ≠ [] ∧ '|' ∉ s.data ∧ 4 ≤ s.data.length := by
  intro s hs
  unfold tasksParts at hs
  rcases List.mem_append.mp hs with hs | hs
  · rcases List.mem_append.mp hs with hs | hs
    · rcases List.mem_append.mp hs with hs | hs
      · rcases List.mem_append.mp hs with hs | hs
        · have h := mem_opt hs
          subst h
          obtain ⟨g1, g2, g3⟩ := numFragI_good "project=" (by decide) o.projectID
          have hlt : "project=".data.length = 8 := by decide
          exact ⟨g1, g2, by omega⟩
        · have h := mem_opt hs
          subst h
          obtain ⟨g1, g2, g3⟩ := numFragI_good "tasklist=" (by decide) o.taskListID
          have hlt : "tasklist=".data.length = 9 := by decide
          exact ⟨g1, g2, by omega⟩
      · have h := mem_opt hs
        subst h
        obtain ⟨g1, g2, g3⟩ := numFragI_good "user=" (by decide) o.userID
        have hlt : "user=".data.length = 5 := by decide
        exact ⟨g1, g2, by omega⟩
    · rcases mem_ite_pair hs with h | h <;> (subst h; exact ⟨by decide, by decide, by decide⟩)
  · have h := mem_opt hs
    subst h
    exact ⟨by decide, by decide, by decide⟩

/-- Every fragment of `entriesParts` is nonempty, bar-free and ≥ 4 chars. -/
theorem entriesParts_good (o : EntryListOptions) :
    ∀ s ∈ entriesParts o, s.data ≠ [] ∧ '|' ∉ s.data ∧ 4 ≤ s.data.length := by
  intro s hs
  unfold entriesParts at hs
  rcases List.mem_append.mp hs with hs | hs
  · rcases List.mem_append.mp hs with hs | hs
    · rcases List.mem_append.mp hs with hs | hs
      · rcases List.mem_append.mp hs with hs | hs
        · have h := mem_opt hs
          subst h
          obtain ⟨g1, g2, g3⟩ := numFragI_good "user=" (by decide) o.userID
          have hlt : "user=".data.length = 5 := by decide
          exact ⟨g1, g2, by omega⟩
        · have h := mem_opt hs
          subst h
          obtain ⟨g1, g2, g3⟩ := numFragI_good "project=" (by decide) o.projectID
          have hlt : "project=".data.length = 8 := by decide
          exact ⟨g1, g2, by omega⟩
      · have h := mem_opt hs
        subst h
        obtain ⟨g1, g2, g3⟩ := numFragI_good "task=" (by decide) o.taskID
        have hlt : "task=".data.length = 5 := by decide
        exact ⟨g1, g2, by omega⟩
    · have h := mem_opt hs
      subst h
      obtain ⟨g1, g2, g3⟩ := dateFragF_good "start=" (by decide) o.startDate
      have hlt : "start=".data.length = 6 := by decide
      exact ⟨g1, g2, by omega⟩
  · have h := mem_opt hs
    subst h
    obtain ⟨g1, g2, g3⟩ := dateFragF_good "end=" (by decide) o.endDate
    have hlt : "end=".data.length = 4 := by decide
    exact ⟨g1, g2, by omega⟩

theorem joinSep_ne_all {x : String} {xs : List String}
    (hlen : ∀ s ∈ x :: xs, 4 ≤ s.data.length) : joinSep "|" (x :: xs) ≠ "all" := by
  intro h
  have hx : 4 ≤ x.data.length := hlen x (List.mem_cons_self x xs)
  cases xs with
  | nil =>
    have h3 : x.data.length = 3 := by
      have := congrArg (fun s : String => s.data.length) h
      simpa using this
    omega
  | cons y ys =>
    have hdata := congrArg String.data h
    rw [joinSep_data_cons2] at hdata
    have hlen2 := congrArg List.length hdata
    rw [List.length_append, List.length_cons] at hlen2
    have h3 : "all".data.length = 3 := by decide
    omega


theorem opt_eq_nil {c : Prop} [Decidable c] {x : String}
    (h : (if c then [x] else []) = []) : ¬c := by
  intro hc
  rw [if_pos hc] at h
  cases h

theorem itepair_ne_nil {c : Prop} [Decidable c] {x y : String} :
    (if c then [x] else [y]) ≠ [] := by
  by_cases hc : c <;> simp [hc]

theorem projectsParts_eq_nil {o : ProjectListOptions} (hc : 0 ≤ o.clientID)
    (hu : 0 ≤ o.userID) (h : projectsParts o = []) :
    o = ⟨false, 0, 0, false, false⟩ := by
  obtain ⟨a, cid, uid, it, ic⟩ := o
  replace hc : 0 ≤ cid := hc
  replace hu : 0 ≤ uid := hu
  unfold projectsParts at h
  dsimp only at h
  rw [List.append_eq_nil, List.append_eq_nil, List.append_eq_nil,
    List.append_eq_nil] at h
  obtain ⟨⟨⟨⟨hA, hB⟩, hC⟩, hD⟩, hE⟩ := h
  have ha : a = false := by
    cases a
    · rfl
    · exact absurd rfl (opt_eq_nil hA)
  have h1 : cid = 0 := by
    have := opt_eq_nil hB
    omega
  have h2 : uid = 0 := by
    have := opt_eq_nil hC
    omega
  have h3 : it = false := by
    cases it
    · rfl
    · exact absurd rfl (opt_eq_nil hD)
  have h4 : ic = false := by
    cases ic
    · rfl
    · exact absurd rfl (opt_eq_nil hE)
  subst ha h1 h2 h3 h4
  rfl

theorem tasksParts_ne_nil (o : TaskListOptions) : tasksParts o ≠ [] := by
  unfold tasksParts
  intro h
  rw [List.append_eq_nil, List.append_eq_nil, List.append_eq_nil,
    List.append_eq_nil] at h
  exact itepair_ne_nil h.1.2

theorem entriesParts_eq_nil {o : EntryListOptions} (hu : 0 ≤ o.userID)
    (hp : 0 ≤ o.projectID) (ht : 0 ≤ o.taskID) (h : entriesParts o = []) :
    o.userID = 0 ∧ o.projectID = 0 ∧ o.taskID = 0 ∧
      o.startDate = GoTime.zero ∧ o.endDate = GoTime.zero := by
  obtain ⟨uid, pid, tid, sd, ed, itk, ipr⟩ := o
  replace hu : 0 ≤ uid := hu
  replace hp : 0 ≤ pid := hp
  replace ht : 0 ≤ tid := ht
  unfold entriesParts at h
  dsimp only at h
  rw [List.append_eq_nil, List.append_eq_nil, List.append_eq_nil,
    List.append_eq_nil] at h
  obtain ⟨⟨⟨⟨hA, hB⟩, hC⟩, hD⟩, hE⟩ := h
  refine ⟨?_, ?_, ?_, ?_, ?_⟩
  · show uid = 0
    have := opt_eq_nil hA
    omega
  · show pid = 0
    have := opt_eq_nil hB
    omega
  · show tid = 0
    have := opt_eq_nil hC
    omega
  · have hz := opt_eq_nil hD
    show sd = GoTime.zero
    by_cases hq : sd = GoTime.zero
    · exact hq
    · exfalso
      apply hz
      unfold GoTime.isZero
      rw [decide_eq_false hq]
      rfl
  · have hz := opt_eq_nil hE
    show ed = GoTime.zero
    by_cases hq : ed = GoTime.zero
    · exact hq
    · exfalso
      apply hz
      unfold GoTime.isZero
      rw [decide_eq_false hq]
      rfl

theorem projectsKey_inj {o1 o2 : ProjectListOptions} (h1c : 0 ≤ o1.clientID)
    (h1u : 0 ≤ o1.userID) (h2c : 0 ≤ o2.clientID) (h2u : 0 ≤ o2.userID)
    (h : projectsKey (some o1) = projectsKey (some o2)) : o1 = o2 := by
  simp only [projectsKey] at h
  by_cases e1 : projectsParts o1 = []
  · by_cases e2 : projectsParts o2 = []
    · rw [projectsParts_eq_nil h1c h1u e1, projectsParts_eq_nil h2c h2u e2]
    · exfalso
      rw [if_pos e1, if_neg e2] at h
      cases hp : projectsParts o2 with
      | nil => exact e2 hp
      | cons x xs =>
        rw [hp] at h
        exact joinSep_ne_all
          (fun s hs => (projectsParts_good o2 s (hp ▸ hs)).2.2) h.symm
  · by_cases e2 : projectsParts o2 = []
    · exfalso
      rw [if_neg e1, if_pos e2] at h
      cases hp : projectsParts o1 with
      | nil => exact e1 hp
      | cons x xs =>
        rw [hp] at h
        exact joinSep_ne_all
          (fun s hs => (projectsParts_good o1 s (hp ▸ hs)).2.2) h
    · rw [if_neg e1, if_neg e2] at h
      have hparts := joinSep_inj _ _
        (fun s hs => ⟨(projectsParts_good o1 s hs).1, (projectsParts_good o1 s hs).2.1⟩)
        (fun s hs => ⟨(projectsParts_good o2 s hs).1, (projectsParts_good o2 s hs).2.1⟩) h
      have hdec := congrArg decodeProjects hparts
      rwa [decodeProjects_parts o1 h1c h1u, decodeProjects_parts o2 h2c h2u] at hdec

theorem tasksKey_inj {o1 o2 : TaskListOptions} (h1p : 0 ≤ o1.projectID)
    (h1t : 0 ≤ o1.taskListID) (h1u : 0 ≤ o1.userID) (h2p : 0 ≤ o2.projectID)
    (h2t : 0 ≤ o2.taskListID) (h2u : 0 ≤ o2.userID)
    (h : tasksKey (some o1) = tasksKey (some o2)) : o1 = o2 := by
  simp only [tasksKey] at h
  rw [if_neg (tasksParts_ne_nil o1), if_neg (tasksParts_ne_nil o2)] at h
  have hparts := joinSep_inj _ _
    (fun s hs => ⟨(tasksParts_good o1 s hs).1, (tasksParts_good o1 s hs).2.1⟩)
    (fun s hs => ⟨(tasksParts_good o2 s hs).1, (tasksParts_good o2 s hs).2.1⟩) h
  have hdec := congrArg decodeTasks hparts
  rwa [decodeTasks_parts o1 h1p h1t h1u, decodeTasks_parts o2 h2p h2t h2u] at hdec

theorem tasksKey_ne_all (o : TaskListOptions) : tasksKey (some o) ≠ "all" := by
  simp only [tasksKey]
  rw [if_neg (tasksParts_ne_nil o)]
  cases hp : tasksParts o with
  | nil => exact absurd hp (tasksParts_ne_nil o)
  | cons x xs =>
    exact joinSep_ne_all (fun s hs => (tasksParts_good o s (hp ▸ hs)).2.2)

/-- Canonical entry-list options: non-negative ID filters and day-canonical
dates. -/
def canonE (o : EntryListOptions) : Prop :=
  0 ≤ o.userID ∧ 0 ≤ o.projectID ∧ 0 ≤ o.taskID ∧
    canonDate o.startDate ∧ canonDate o.endDate

instance (t : GoTime) : Decidable (canonDate t) := by
  unfold canonDate
  infer_instance

instance (o : EntryListOptions) : Decidable (canonE o) := by
  unfold canonE
  infer_instance

theorem entriesKey_inj {o1 o2 : EntryListOptions} (h1 : canonE o1) (h2 : canonE o2)
    (h : entriesKey (some o1) = entriesKey (some o2)) :
    o1.userID = o2.userID ∧ o1.projectID = o2.projectID ∧ o1.taskID = o2.taskID ∧
      o1.startDate = o2.startDate ∧ o1.endDate = o2.endDate := by
  obtain ⟨h1u, h1p, h1t, h1s, h1e⟩ := h1
  obtain ⟨h2u, h2p, h2t, h2s, h2e⟩ := h2
  simp only [entriesKey] at h
  by_cases e1 : entriesParts o1 = []
  · by_cases e2 : entriesParts o2 = []
    · obtain ⟨a1, b1, c1, d1, f1⟩ := entriesParts_eq_nil h1u h1p h1t e1
      obtain ⟨a2, b2, c2, d2, f2⟩ := entriesParts_eq_nil h2u h2p h2t e2
      rw [a1, b1, c1, d1, f1, a2, b2, c2, d2, f2]
      exact ⟨rfl, rfl, rfl, rfl, rfl⟩
    · exfalso
      rw [if_pos e1, if_neg e2] at h
      cases hp : entriesParts o2 with
      | nil => exact e2 hp
      | cons x xs =>
        rw [hp] at h
        exact joinSep_ne_all
          (fun s hs => (entriesParts_good o2 s (hp ▸ hs)).2.2) h.symm
  · by_cases e2 : entriesParts o2 = []
    · exfalso
      rw [if_neg e1, if_pos e2] at h
      cases hp : entriesParts o1 with
      | nil => exact e1 hp
      | cons x xs =>
        rw [hp] at h
        exact joinSep_ne_all
          (fun s hs => (entriesParts_good o1 s (hp ▸ hs)).2.2) h
    · rw [if_neg e1, if_neg e2] at h
      have hparts := joinSep_inj _ _
        (fun s hs => ⟨(entriesParts_good o1 s hs).1, (entriesParts_good o1 s hs).2.1⟩)
        (fun s hs => ⟨(entriesParts_good o2 s hs).1, (entriesParts_good o2 s hs).2.1⟩) h
      have hdec := congrArg decodeEntries hparts
      rw [decodeEntries_parts o1 h1u h1p h1t h1s h1e,
        decodeEntries_parts o2 h2u h2p h2t h2s h2e] at hdec
      simp only [EntryListOptions.mk.injEq, and_true] at hdec
      exact hdec


/-- C8 (counterexample): an explicit all-zero `TaskListOptions` yields
`"completed=false"`, not `"all"`; and `entriesKey` ignores both the
`IncludeTask`/`IncludeProject` flags and sub-day time differences, so options
differing in a non-zero field can share a key. -/
theorem claim8_counterexample :
    tasksKey (some ⟨0, 0, 0, false, false⟩) = "completed=false" ∧
    ("completed=false" : String) ≠ "all" ∧
    ((⟨1, 0, 0, GoTime.zero, GoTime.zero, true, false⟩ : EntryListOptions)
      ≠ ⟨1, 0, 0, GoTime.zero, GoTime.zero, false, false⟩) ∧
    entriesKey (some ⟨1, 0, 0, GoTime.zero, GoTime.zero, true, false⟩)
      = entriesKey (some ⟨1, 0, 0, GoTime.zero, GoTime.zero, false, false⟩) ∧
    ((⟨0, 0, 0, ⟨2026, 1, 15, 3600⟩, GoTime.zero, false, false⟩ : EntryListOptions)
      ≠ ⟨0, 0, 0, ⟨2026, 1, 15, 0⟩, GoTime.zero, false, false⟩) ∧
    entriesKey (some ⟨0, 0, 0, ⟨2026, 1, 15, 3600⟩, GoTime.zero, false, false⟩)
      = entriesKey (some ⟨0, 0, 0, ⟨2026, 1, 15, 0⟩, GoTime.zero, false, false⟩) := by
  decide

/-- C8 (amended): nil and all-zero options give the key `"all"` for
`projectsKey` and `entriesKey`, while `tasksKey` maps nil to `"all"` but
all-zero options to `"completed=false"` (and never produces `"all"` for
non-nil options).  On options with non-negative ID filters (and day-canonical
dates), `projectsKey` and `tasksKey` are injective, and `entriesKey`
determines every rendered field — the user/project/task filters and the
day-granularity start/end dates — while ignoring `IncludeTask` and
`IncludeProject`. -/
theorem claim8_key_derivation :
    (projectsKey none = "all" ∧
      projectsKey (some ⟨false, 0, 0, false, false⟩) = "all" ∧
      entriesKey none = "all" ∧
      entriesKey (some ⟨0, 0, 0, GoTime.zero, GoTime.zero, false, false⟩) = "all" ∧
      tasksKey none = "all" ∧
      tasksKey (some ⟨0, 0, 0, false, false⟩) = "completed=false") ∧
    (∀ o1 o2 : ProjectListOptions, 0 ≤ o1.clientID → 0 ≤ o1.userID →
      0 ≤ o2.clientID → 0 ≤ o2.userID →
      projectsKey (some o1) = projectsKey (some o2) → o1 = o2) ∧
    (∀ o1 o2 : TaskListOptions, 0 ≤ o1.projectID → 0 ≤ o1.taskListID →
      0 ≤ o1.userID → 0 ≤ o2.projectID → 0 ≤ o2.taskListID → 0 ≤ o2.userID →
      tasksKey (some o1) = tasksKey (some o2) → o1 = o2) ∧
    (∀ o : TaskListOptions, tasksKey (some o) ≠ "all") ∧
    (∀ o1 o2 : EntryListOptions, canonE o1 → canonE o2 →
      entriesKey (some o1) = entriesKey (some o2) →
      o1.userID = o2.userID ∧ o1.projectID = o2.projectID ∧ o1.taskID = o2.taskID ∧
        o1.startDate = o2.startDate ∧ o1.endDate = o2.endDate) ∧
    (∀ (o : EntryListOptions) (a b : Bool),
      entriesKey (some ⟨o.userID, o.projectID, o.taskID, o.startDate, o.endDate, a, b⟩)
        = entriesKey (some o)) := by
  refine ⟨⟨rfl, by decide, rfl, by decide, rfl, by decide⟩, ?_, ?_, tasksKey_ne_all,
    ?_, ?_⟩
  · exact fun o1 o2 a b c d h => projectsKey_inj a b c d h
  · exact fun o1 o2 a b c d e f h => tasksKey_inj a b c d e f h
  · exact fun o1 o2 h1 h2 h => entriesKey_inj h1 h2 h
  · intro o a b
    rfl

theorem claim8_witness :
    ((⟨false, 5, 0, true, false⟩ : ProjectListOptions) = ⟨false, 5, 0, true, false⟩) ∧
    ((⟨3, 0, 4, false, true⟩ : TaskListOptions) = ⟨3, 0, 4, false, true⟩) ∧
    (⟨1, 0, 0, ⟨2026, 1, 15, 0⟩, GoTime.zero, true, false⟩ : EntryListOptions).startDate
      = (⟨1, 0, 0, ⟨2026, 1, 15, 0⟩, GoTime.zero, false, false⟩
          : EntryListOptions).startDate := by
  have h := claim8_key_derivation
  refine ⟨h.2.1 ⟨false, 5, 0, true, false⟩ ⟨false, 5, 0, true, false⟩
      (by decide) (by decide) (by decide) (by decide) rfl,
    h.2.2.1 ⟨3, 0, 4, false, true⟩ ⟨3, 0, 4, false, true⟩
      (by decide) (by decide) (by decide) (by decide) (by decide) (by decide) rfl,
    (h.2.2.2.2.1 ⟨1, 0, 0, ⟨2026, 1, 15, 0⟩, GoTime.zero, true, false⟩
      ⟨1, 0, 0, ⟨2026, 1, 15, 0⟩, GoTime.zero, false, false⟩
      (by decide) (by decide) (by decide)).2.2.2.1⟩

end Paymo
